import Mathlib

/-!
Verification of the gvm version-manager core (internal/version/version.go,
internal/utils/utils.go, internal/config) against its specification.

The Go code is shallowly embedded: paths are lists of components, the
filesystem is a finite association list from paths to nodes, effectful
steps whose outcome is decided outside the program (HTTP responses,
catalog contents, symlink syscall success) are supplied by explicit
environment records, and every Go function relevant to the claims is
translated into an executable Lean function of the same shape.
-/

namespace Gvm

/-- A filesystem path as the list of its components below the root.
`["home","u",".gvm","versions","go1.21.5"]` stands for
`/home/u/.gvm/versions/go1.21.5`. -/
abbrev Path := List String

/-- Association-list lookup (first match wins), used for the filesystem
and for the Go `map[string]VersionInfo` in the config store. -/
def alookup {κ β : Type} [DecidableEq κ] (k : κ) : List (κ × β) → Option β
  | [] => none
  | e :: es => if e.1 = k then some e.2 else alookup k es

@[simp] theorem alookup_nil {κ β : Type} [DecidableEq κ] (k : κ) :
    alookup (β := β) k [] = none := rfl

theorem alookup_cons {κ β : Type} [DecidableEq κ] (k : κ) (e : κ × β) (es : List (κ × β)) :
    alookup k (e :: es) = if e.1 = k then some e.2 else alookup k es := rfl

/-- Go's `strings.Split(s, "/")`, specialised to the separator `/`. -/
def splitSlash (s : String) : List String :=
  let r := s.toList.foldl
    (fun (acc : List (List Char) × List Char) (c : Char) =>
      if c = '/' then (acc.1 ++ [acc.2], []) else (acc.1, acc.2 ++ [c]))
    ([], [])
  (r.1 ++ [r.2]).map (fun l => ⟨l⟩)

/-- One step of `filepath.Clean` on a rooted path: empty and `.` components
vanish, `..` pops the previous component (and stays at the root). -/
def cleanStep (acc : List String) (c : String) : List String :=
  if c = "" ∨ c = "." then acc
  else if c = ".." then acc.dropLast
  else acc ++ [c]

/-- Go's `filepath.Clean` of a rooted path given as raw components. -/
def cleanAbs (cs : List String) : Path := cs.foldl cleanStep []

/-- Go's `filepath.Join(base, name)` for a rooted, already-clean `base`:
split `name` on `/` and clean the concatenation. -/
def goJoin (base : Path) (name : String) : Path :=
  cleanAbs (base ++ splitSlash name)

/-- Go's `filepath.Dir`, on component lists. -/
def parentOf (p : Path) : Path := p.dropLast

/-- Boolean: `xs` is an initial segment of `ys` (used for recursive removal
and path locality statements). -/
def listLeads {α : Type} [DecidableEq α] : List α → List α → Bool
  | x :: xs, y :: ys => if x = y then listLeads xs ys else false
  | [], _ => true
  | _ :: _, [] => false

/-- Go's `strings.HasPrefix s pre` (note Go's argument order is `(s, prefix)`;
here the leading string comes first). -/
def strLeads (pre s : String) : Bool := listLeads pre.toList s.toList

/-- Go's `strings.HasSuffix s suf`. -/
def strTrails (suf s : String) : Bool := listLeads suf.toList.reverse s.toList.reverse

/-- Go's `strings.TrimPrefix(s, pre)`: drop the leading occurrence, or return
`s` unchanged when `pre` does not lead `s`. -/
def trimPre (s pre : String) : String :=
  if strLeads pre s then ⟨s.toList.drop pre.toList.length⟩ else s

/-- Go's `strings.Contains(s, sub)`. -/
def strContainsSub (s sub : String) : Bool :=
  (List.range (s.toList.length + 1)).any (fun i => listLeads sub.toList (s.toList.drop i))

/-- ASCII lower-casing of one character (the fragment of Unicode folding
exercised by hex digests, which are ASCII). -/
def lowerChar (c : Char) : Char :=
  if 'A' ≤ c ∧ c ≤ 'Z' then Char.ofNat (c.toNat + 32) else c

/-- ASCII `strings.ToLower`. -/
def lowerStr (s : String) : String := ⟨s.toList.map lowerChar⟩

/-- Go's `strings.EqualFold` restricted to the ASCII range: pointwise equality
after case folding.  Exact for the hex alphabet `0-9a-fA-F` produced and
consumed by the digest code, where Go's Unicode simple folding coincides
with ASCII case folding. -/
def eqFoldChars : List Char → List Char → Bool
  | [], [] => true
  | a :: as, b :: bs => if lowerChar a = lowerChar b then eqFoldChars as bs else false
  | _, _ => false

def eqFold (a b : String) : Bool := eqFoldChars a.toList b.toList

/-- The ASCII white-space bytes trimmed by `strings.TrimSpace` (the inputs
compared by the code are ASCII version strings). -/
def isSpaceByte (b : Nat) : Bool := b = 9 ∨ b = 10 ∨ b = 11 ∨ b = 12 ∨ b = 13 ∨ b = 32

/-- Go's `strings.TrimSpace` on byte content. -/
def trimSpaceBytes (bs : List Nat) : List Nat :=
  ((bs.dropWhile isSpaceByte).reverse.dropWhile isSpaceByte).reverse

/-- Bytes of an ASCII string (agrees with Go's UTF-8 `[]byte(s)` on the
ASCII strings the claims are about). -/
def strBytes (s : String) : List Nat := s.toList.map Char.toNat

/-- Render a rooted path as a string, as the Go code sees it
(`/a/b/c`); used for the `strings.Contains` test in `GetCurrentVersion`. -/
def renderPath (p : Path) : String := p.foldl (fun acc c => acc ++ "/" ++ c) ""

/-- A path component that survives `filepath.Clean` unchanged. -/
def plainComp (s : String) : Bool :=
  (splitSlash s = [s] : Bool) && !(s = "") && !(s = ".") && !(s = "..")

/-- A path all of whose components are plain (i.e. already clean). -/
def cleanPath (p : Path) : Bool := p.all (fun c => !(c = "") && !(c = ".") && !(c = ".."))

/-- Drop every binding of key `k` (the effect of overwriting/removing a
map key in the Go model). -/
def eraseKey {κ β : Type} [DecidableEq κ] (k : κ) : List (κ × β) → List (κ × β)
  | [] => []
  | e :: es => if e.1 = k then eraseKey k es else e :: eraseKey k es

/-- Drop every binding whose key lies at or below the path `p`. -/
def eraseUnder {β : Type} (p : Path) : List (Path × β) → List (Path × β)
  | [] => []
  | e :: es => if listLeads p e.1 then eraseUnder p es else e :: eraseUnder p es

/-! ## Error taxonomy

The Go code reports errors as `fmt.Errorf` strings; the embedding tags each
distinct failure site so that claims about which error is produced are
statable. -/

/-- Decidable equality for `Except` results, so that concrete runs can be
checked by `decide`. -/
def exceptDecEq {ε α : Type} [DecidableEq ε] [DecidableEq α] :
    DecidableEq (Except ε α) := fun a b =>
  match a, b with
  | .ok x, .ok y => if h : x = y then isTrue (by rw [h]) else isFalse (by simp [h])
  | .error x, .error y => if h : x = y then isTrue (by rw [h]) else isFalse (by simp [h])
  | .ok _, .error _ => isFalse (by simp)
  | .error _, .ok _ => isFalse (by simp)

instance {ε α : Type} [DecidableEq ε] [DecidableEq α] : DecidableEq (Except ε α) :=
  exceptDecEq

inductive GvmError
  | alreadyInstalled (version : String)
  | unknownVersion (version : String)
  | noSuitablePackage (platform : String)
  | downloadFailed (filename : String)
  | shaMismatch (expected got : String)
  | unsupportedFormat (filename : String)
  | validationMissingVersionFile
  | validationVersionMismatch (expected : String) (got : List Nat)
  | validationBinaryMissing
  | notInstalled (version : String)
  | activeVersionInUse (version : String)
  | configFailed (msg : String)
  | ioError (msg : String)
  | fileNotExist (path : Path)
  | badStatus (status : Nat)
  | netError (msg : String)
deriving DecidableEq

/-! ## Filesystem model

A finite map from rooted paths to nodes.  Symlink traversal is not
modelled: no operation exercised by the claims reads or writes through a
symlink (the only symlink the code creates is the shim, which it always
removes before recreating). -/

inductive FsNode
  | dir
  | file (content : List Nat) (mode : Nat)
  | symlink (target : Path)
deriving DecidableEq

structure FS where
  entries : List (Path × FsNode)
deriving DecidableEq

/-- Go's `os.Stat` / `os.Lstat` (no traversal distinction needed here). -/
def FS.stat (fs : FS) (p : Path) : Option FsNode := alookup p fs.entries

/-- Insert or replace the node at `p`. -/
def FS.write (fs : FS) (p : Path) (n : FsNode) : FS :=
  ⟨(p, n) :: eraseKey p fs.entries⟩

/-- Go's `os.Remove` of a single non-directory entry (the code only ever calls
it on files and symlinks; removal of a populated directory would fail and
is not modelled). -/
def FS.remove (fs : FS) (p : Path) : FS :=
  ⟨eraseKey p fs.entries⟩

/-- Go's `os.RemoveAll`: delete `p` and everything below it. -/
def FS.removeAll (fs : FS) (p : Path) : FS :=
  ⟨eraseUnder p fs.entries⟩

/-- All nonempty initial segments of `p`, shortest first (the directories
`os.MkdirAll` walks). -/
def ancestorsIncl (p : Path) : List Path :=
  (List.range p.length).map (fun i => p.take (i + 1))

/-- The root directory always exists; other paths must carry a `dir` node. -/
def FS.isDirAt (fs : FS) (p : Path) : Bool :=
  match p with
  | [] => true
  | _ => fs.stat p = some .dir

def FS.dirOrAbsent (fs : FS) (p : Path) : Bool :=
  match fs.stat p with
  | some .dir => true
  | none => true
  | _ => false

def FS.mkdirOne (fs : FS) (q : Path) : FS :=
  match fs.stat q with
  | some _ => fs
  | none => fs.write q .dir

/-- The writes `os.MkdirAll` performs once its walk has been checked. -/
def FS.mkdirAllOk (fs : FS) (p : Path) : FS :=
  (ancestorsIncl p).foldl FS.mkdirOne fs

/-- Go's `os.MkdirAll`: fails if any path element exists and is not a
directory, otherwise creates the missing directories. -/
def FS.mkdirAll (fs : FS) (p : Path) : Except GvmError FS :=
  if (ancestorsIncl p).all fs.dirOrAbsent then .ok (fs.mkdirAllOk p)
  else .error (.ioError "mkdir: not a directory")

/-- Go's `os.OpenFile(p, O_CREATE|O_WRONLY|O_TRUNC, mode)` followed by writing
`content`: the parent must be a directory, the target must not be one, and
an overwritten file keeps its old mode bits. -/
def FS.openWrite (fs : FS) (p : Path) (content : List Nat) (mode : Nat) :
    Except GvmError FS :=
  if !fs.isDirAt (parentOf p) then .error (.ioError "open: no such directory")
  else
    match fs.stat p with
    | some .dir => .error (.ioError "open: is a directory")
    | some (.file _ m) => .ok (fs.write p (.file content m))
    | some (.symlink _) => .ok (fs.write p (.file content mode))
    | none => .ok (fs.write p (.file content mode))

/-- Go's `os.ReadFile`. -/
def FS.readFile (fs : FS) (p : Path) : Except GvmError (List Nat) :=
  match fs.stat p with
  | some (.file c _) => .ok c
  | some _ => .error (.ioError "read: not a regular file")
  | none => .error (.fileNotExist p)

/-- Go's `utils.FileExists`: `!os.IsNotExist(err)` for the `Stat` error. -/
def fileExists (fs : FS) (p : Path) : Bool := (fs.stat p).isSome

/-- Go's `utils.EnsureDir`: `MkdirAll` unless something already exists there. -/
def ensureDir (fs : FS) (p : Path) : Except GvmError FS :=
  if fileExists fs p then .ok fs else fs.mkdirAll p

/-! ## SHA-256 (`crypto/sha256` as streamed by `utils.ComputeSHA256`)

Machine words are `Nat` reduced modulo `2^32`; the file is its byte list. -/

def M32 : Nat := 4294967296

def rotr32 (n x : Nat) : Nat := ((x >>> n) ||| (x <<< (32 - n))) % M32

def bsig0 (x : Nat) : Nat := rotr32 2 x ^^^ rotr32 13 x ^^^ rotr32 22 x
def bsig1 (x : Nat) : Nat := rotr32 6 x ^^^ rotr32 11 x ^^^ rotr32 25 x
def ssig0 (x : Nat) : Nat := rotr32 7 x ^^^ rotr32 18 x ^^^ (x >>> 3)
def ssig1 (x : Nat) : Nat := rotr32 17 x ^^^ rotr32 19 x ^^^ (x >>> 10)
def chf (x y z : Nat) : Nat := (x &&& y) ^^^ ((x ^^^ 4294967295) &&& z)
def majf (x y z : Nat) : Nat := (x &&& y) ^^^ (x &&& z) ^^^ (y &&& z)

def shaK : List Nat :=
  [1116352408, 1899447441, 3049323471, 3921009573, 961987163,
   1508970993, 2453635748, 2870763221, 3624381080, 310598401,
   607225278, 1426881987, 1925078388, 2162078206, 2614888103,
   3248222580, 3835390401, 4022224774, 264347078, 604807628,
   770255983, 1249150122, 1555081692, 1996064986, 2554220882,
   2821834349, 2952996808, 3210313671, 3336571891, 3584528711,
   113926993, 338241895, 666307205, 773529912, 1294757372,
   1396182291, 1695183700, 1986661051, 2177026350, 2456956037,
   2730485921, 2820302411, 3259730800, 3345764771, 3516065817,
   3600352804, 4094571909, 275423344, 430227734, 506948616,
   659060556, 883997877, 958139571, 1322822218, 1537002063,
   1747873779, 1955562222, 2024104815, 2227730452, 2361852424,
   2428436474, 2756734187, 3204031479, 3329325298]

/-- Big-endian 8-byte encoding of the bit length. -/
def be64 (n : Nat) : List Nat :=
  [(n >>> 56) % 256, (n >>> 48) % 256, (n >>> 40) % 256, (n >>> 32) % 256,
   (n >>> 24) % 256, (n >>> 16) % 256, (n >>> 8) % 256, n % 256]

/-- SHA-256 message padding. -/
def padMsg (msg : List Nat) : List Nat :=
  msg ++ [0x80] ++ List.replicate ((119 - msg.length % 64) % 64) 0
      ++ be64 (8 * msg.length)

/-- Split into 64-byte blocks (structural recursion on a fuel bound so the
definition reduces inside the kernel). -/
def chunksAux : Nat → List Nat → List (List Nat)
  | 0, _ => []
  | _, [] => []
  | fuel + 1, b :: bs => ((b :: bs).take 64) :: chunksAux fuel ((b :: bs).drop 64)

def chunks64 (bs : List Nat) : List (List Nat) := chunksAux (bs.length + 1) bs

/-- Big-endian 32-bit word from four bytes. -/
def be32 (bs : List Nat) : Nat :=
  match bs with
  | [a, b, c, d] => ((a % 256) <<< 24) + ((b % 256) <<< 16) + ((c % 256) <<< 8) + d % 256
  | _ => 0

/-- The 16 message words of one block. -/
def words16 (block : List Nat) : List Nat :=
  (List.range 16).map (fun i => be32 ((block.drop (4 * i)).take 4))

/-- Extend the 16 message words to the 64-word schedule. -/
def schedule (block : List Nat) : List Nat :=
  (List.range 48).foldl
    (fun w _ =>
      w ++ [(ssig1 (w.getD (w.length - 2) 0) + w.getD (w.length - 7) 0 +
             ssig0 (w.getD (w.length - 15) 0) + w.getD (w.length - 16) 0) % M32])
    (words16 block)

structure H8 where
  a : Nat
  b : Nat
  c : Nat
  d : Nat
  e : Nat
  f : Nat
  g : Nat
  h : Nat
deriving DecidableEq

def shaRound (s : H8) (kw : Nat × Nat) : H8 :=
  let t1 := (s.h + bsig1 s.e + chf s.e s.f s.g + kw.1 + kw.2) % M32
  let t2 := (bsig0 s.a + majf s.a s.b s.c) % M32
  ⟨(t1 + t2) % M32, s.a, s.b, s.c, (s.d + t1) % M32, s.e, s.f, s.g⟩

def compressBlock (h : H8) (block : List Nat) : H8 :=
  let s := (shaK.zip (schedule block)).foldl shaRound h
  ⟨(h.a + s.a) % M32, (h.b + s.b) % M32, (h.c + s.c) % M32, (h.d + s.d) % M32,
   (h.e + s.e) % M32, (h.f + s.f) % M32, (h.g + s.g) % M32, (h.h + s.h) % M32⟩

def shaInitH : H8 :=
  ⟨1779033703, 3144134277, 1013904242, 2773480762,
   1359893119, 2600822924, 528734635, 1541459225⟩

/-- Big-endian bytes of one 32-bit word. -/
def wordBytes (w : Nat) : List Nat :=
  [(w >>> 24) % 256, (w >>> 16) % 256, (w >>> 8) % 256, w % 256]

/-- The 32-byte SHA-256 digest of a byte list. -/
def sha256Bytes (msg : List Nat) : List Nat :=
  let h := (chunks64 (padMsg msg)).foldl compressBlock shaInitH
  wordBytes h.a ++ wordBytes h.b ++ wordBytes h.c ++ wordBytes h.d ++
  wordBytes h.e ++ wordBytes h.f ++ wordBytes h.g ++ wordBytes h.h

def hexDigit (n : Nat) : Char :=
  if n < 10 then Char.ofNat (48 + n) else Char.ofNat (87 + n % 16)

def hexOfByte (b : Nat) : List Char := [hexDigit (b / 16 % 16), hexDigit (b % 16)]

/-- Go's `utils.ComputeSHA256`: stream the file, hash it, lowercase-hex encode
(`hex.EncodeToString`). -/
def computeSHA256 (content : List Nat) : String :=
  ⟨((sha256Bytes content).map hexOfByte).flatten⟩

/-- Go's `utils.VerifySHA256`: recompute and compare with
`strings.EqualFold(sum, expected)`. -/
def verifySHA256 (content : List Nat) (expected : String) : Except GvmError Unit :=
  let sum := computeSHA256 content
  if eqFold sum expected then .ok () else .error (.shaMismatch expected sum)

/-! ## Catalog data model (`version.GoVersion`) -/

structure GoFile where
  filename : String
  os : String
  arch : String
  version : String
  sha256 : String
  size : Int
deriving DecidableEq

structure GoVersion where
  version : String
  stable : Bool
  files : List GoFile
deriving DecidableEq

/-- Go's `GetLatestStable`: first stable entry in catalog order. -/
def getLatestStable (versions : List GoVersion) : Except GvmError String :=
  match versions.find? (fun v => v.stable) with
  | some v => .ok v.version
  | none => .error (.netError "no stable versions found")

/-! ## Config store (`internal/config`)

The persisted JSON document.  `Load`-mutate-`Save` round trips are modelled
at the record level: a round trip either applies the whole mutation or
fails leaving the stored document unchanged (an environment flag stands
for I/O failure of `Load`/`Save`). -/

structure VersionInfo where
  installedDate : String
  active : Bool
deriving DecidableEq

structure Config where
  currentVersion : String
  installDir : String
  versions : List (String × VersionInfo)
deriving DecidableEq

/-- Go map assignment `m[k] = v`: replace in place or append. -/
def assocSet (m : List (String × VersionInfo)) (k : String) (v : VersionInfo) :
    List (String × VersionInfo) :=
  if (alookup k m).isSome then m.map (fun e => if e.1 = k then (k, v) else e)
  else m ++ [(k, v)]

/-- Go map deletion `delete(m, k)`. -/
def assocRemove (m : List (String × VersionInfo)) (k : String) :
    List (String × VersionInfo) :=
  eraseKey k m

/-- Go's `config.AddVersion`. -/
def addVersion (now : String) (v : String) (c : Config) : Config :=
  { c with versions := assocSet c.versions v ⟨now, false⟩ }

/-- Go's `config.SetCurrentVersion`: deactivate every record, activate `v`'s
record when one exists, and point `currentVersion` at `v` unconditionally. -/
def setCurrentVersion (v : String) (c : Config) : Config :=
  let vs := c.versions.map (fun e => (e.1, { e.2 with active := false }))
  let vs := match alookup v vs with
    | some info => assocSet vs v { info with active := true }
    | none => vs
  { c with currentVersion := v, versions := vs }

/-- Go's `config.RemoveVersion`: drop the record; reset `currentVersion` when it
named the removed version. -/
def removeVersion (v : String) (c : Config) : Config :=
  let c' : Config := { c with versions := assocRemove c.versions v }
  if c'.currentVersion = v then { c' with currentVersion := "" } else c'

/-- The spec's Configuration invariant: `currentVersion` is empty, the
sentinel "system", or a key of the versions map. -/
def configInv (c : Config) : Prop :=
  c.currentVersion = "" ∨ c.currentVersion = "system" ∨
    (alookup c.currentVersion c.versions).isSome

instance (c : Config) : Decidable (configInv c) := by
  unfold configInv; infer_instance

/-! ## Archive extraction (`utils.ExtractTarGz`, `utils.ExtractZip`)

An archive is embedded as its parsed entry stream (gzip/zip container
decoding is outside the model; a malformed container would fail before any
entry is processed).  Extraction mutates the filesystem entry by entry, so
a failure partway leaves the partial filesystem — the run returns the
final filesystem together with an optional error. -/

inductive TarType
  | dir
  | reg
  | symlink
  | hardlink
  | other (code : Nat)
deriving DecidableEq

structure TarEntry where
  name : String
  typeflag : TarType
  mode : Nat
  content : List Nat
deriving DecidableEq

structure ZipEntry where
  name : String
  entryIsDir : Bool
  mode : Nat
  content : List Nat
deriving DecidableEq

/-- Run entry steps left to right, stopping at the first error but keeping
the filesystem reached so far. -/
def runSteps {α : Type} (step : FS → α → Except GvmError FS) :
    FS → List α → Option GvmError × FS
  | fs, [] => (none, fs)
  | fs, e :: es =>
    match step fs e with
    | .ok fs' => runSteps step fs' es
    | .error err => (some err, fs)

theorem runSteps_nil {α : Type} (step : FS → α → Except GvmError FS) (fs : FS) :
    runSteps step fs [] = (none, fs) := rfl

theorem runSteps_cons {α : Type} (step : FS → α → Except GvmError FS) (fs : FS)
    (e : α) (es : List α) :
    runSteps step fs (e :: es) =
      match step fs e with
      | .ok fs' => runSteps step fs' es
      | .error err => (some err, fs) := rfl

/-- One `tar` entry of `ExtractTarGz`'s loop: strip the `go/` path head,
create directories for `TypeDir`, write regular files for `TypeReg`
(`extractFile`, which does not create parent directories), silently skip
every other type flag. -/
def tarStep (dest : Path) (fs : FS) (e : TarEntry) : Except GvmError FS :=
  let target := goJoin dest (trimPre e.name "go/")
  match e.typeflag with
  | .dir => fs.mkdirAll target
  | .reg => fs.openWrite target e.content e.mode
  | _ => .ok fs

def extractTarGz (archive : List TarEntry) (dest : Path) (fs : FS) :
    Option GvmError × FS :=
  match fs.mkdirAll dest with
  | .error e => (some e, fs)
  | .ok fs1 => runSteps (tarStep dest) fs1 archive

/-- One `zip` entry of `ExtractZip`'s loop: strip the `go/` path head,
create directories for directory entries, otherwise create the parent
directory chain and write the file. -/
def zipStep (dest : Path) (fs : FS) (e : ZipEntry) : Except GvmError FS :=
  let target := goJoin dest (trimPre e.name "go/")
  if e.entryIsDir then fs.mkdirAll target
  else
    match fs.mkdirAll (parentOf target) with
    | .error err => .error err
    | .ok fs1 => fs1.openWrite target e.content e.mode

def extractZip (archive : List ZipEntry) (dest : Path) (fs : FS) :
    Option GvmError × FS :=
  match fs.mkdirAll dest with
  | .error e => (some e, fs)
  | .ok fs1 => runSteps (zipStep dest) fs1 archive

/-! ## The version manager (`internal/version`) -/

/-- Go's `version.VersionManager`: the per-instance install directory
(`$HOME/.gvm/versions`). -/
structure VM where
  installDir : Path
deriving DecidableEq

/-- The install directory is a clean rooted path (true of
`filepath.Join(homeDir, ".gvm/versions")`). -/
def VM.wf (vm : VM) : Prop := cleanPath vm.installDir = true

instance (vm : VM) : Decidable vm.wf := by unfold VM.wf; infer_instance

/-- Orchestrator state: the filesystem plus the persisted config document. -/
structure St where
  fs : FS
  config : Config
deriving DecidableEq

/-- Go's `IsVersionInstalled`: `os.Stat` on `filepath.Join(installDir, version)`
succeeds (for an entry of any kind). -/
def isVersionInstalled (fs : FS) (vm : VM) (v : String) : Bool :=
  (fs.stat (goJoin vm.installDir v)).isSome

/-- Names a direct child of `dir`, if `p` is one. -/
def childName (dir p : Path) : Option String :=
  if p ≠ [] ∧ p.dropLast = dir then p.getLast? else none

/-- Go's `GetInstalledVersions`: `os.ReadDir(installDir)` (a missing directory
yields the empty list), keeping directory entries whose name starts with
"go".  `ReadDir`'s name-sorted order is abstracted; membership is
faithful. -/
def getInstalledVersions (fs : FS) (vm : VM) : Except GvmError (List String) :=
  match fs.stat vm.installDir with
  | none => .ok []
  | some .dir => .ok <| fs.entries.filterMap (fun e =>
      match childName vm.installDir e.1 with
      | some nm => if e.2 = .dir && strLeads "go" nm then some nm else none
      | none => none)
  | some _ => .error (.ioError "read dir: not a directory")

/-- Go's `GetCurrentVersion` as used by `UninstallVersion` (`current, _ := ...`,
i.e. the error is discarded and the zero string stands in): locate `go` on
the search path, take the grandparent directory, answer "system" unless
that directory's rendered string contains the install directory's, else
its base name. -/
def getCurrentVersionOrEmpty (lookPathGo : Option Path) (vm : VM) : String :=
  match lookPathGo with
  | none => ""
  | some goPath =>
    let goRoot := goPath.dropLast.dropLast
    if !strContainsSub (renderPath goRoot) (renderPath vm.installDir) then "system"
    else goRoot.getLast?.getD "/"

/-- The platform-specific entry-point binary inside an installation. -/
def goBinPath (goos : String) (installPath : Path) : Path :=
  if goos = "windows" then installPath ++ ["bin", "go.exe"]
  else installPath ++ ["bin", "go"]

/-- Environment for one `InstallVersion` run: the outcomes of the external
effects (catalog fetch, download, archive parsing, clock, config-file
I/O). The downloaded artifact lands in the OS temp directory, outside the
modelled install tree; its bytes and parsed entries are carried here. -/
structure InstallEnv where
  catalog : Except GvmError (List GoVersion)
  goos : String
  goarch : String
  downloadOk : Bool
  rawArtifact : List Nat
  tarArchive : List TarEntry
  zipArchive : List ZipEntry
  now : String
  configOk : Bool

/-- The post-extraction tail of `InstallVersion`: read `VERSION`, compare
after `strings.TrimSpace`, check the entry-point binary, delete the whole
installation directory on any validation failure, and only then record the
install in the config store. -/
def postExtract (env : InstallEnv) (installPath : Path) (v : String) (st : St) :
    Except GvmError Unit × St :=
  match st.fs.readFile (installPath ++ ["VERSION"]) with
  | .error _ =>
    (.error .validationMissingVersionFile, { st with fs := st.fs.removeAll installPath })
  | .ok b =>
    if trimSpaceBytes b ≠ strBytes v then
      (.error (.validationVersionMismatch v (trimSpaceBytes b)),
       { st with fs := st.fs.removeAll installPath })
    else
      match st.fs.stat (goBinPath env.goos installPath) with
      | none =>
        (.error .validationBinaryMissing, { st with fs := st.fs.removeAll installPath })
      | some _ =>
        if env.configOk then (.ok (), { st with config := addVersion env.now v st.config })
        else (.error (.configFailed "failed to update config"), st)

/-- Go's `InstallVersion`, end to end: already-installed check, catalog lookup,
platform artifact selection, download (mirror/retry loop collapsed to its
outcome), `EnsureDir`, optional digest verification, extension-dispatched
extraction, then `postExtract`. -/
def installVersion (env : InstallEnv) (vm : VM) (v : String) (st : St) :
    Except GvmError Unit × St :=
  if isVersionInstalled st.fs vm v then (.error (.alreadyInstalled v), st)
  else
    match env.catalog with
    | .error e => (.error e, st)
    | .ok avail =>
      match avail.find? (fun gv => gv.version = v) with
      | none => (.error (.unknownVersion v), st)
      | some tv =>
        match tv.files.find? (fun f => f.os = env.goos && f.arch = env.goarch) with
        | none => (.error (.noSuitablePackage (env.goos ++ "-" ++ env.goarch)), st)
        | some tf =>
          if !env.downloadOk then (.error (.downloadFailed tf.filename), st)
          else
            let installPath := goJoin vm.installDir v
            match ensureDir st.fs vm.installDir with
            | .error e => (.error e, st)
            | .ok fs1 =>
              let st1 : St := { st with fs := fs1 }
              if tf.sha256 ≠ "" ∧ verifySHA256 env.rawArtifact tf.sha256 ≠ .ok () then
                (.error (.shaMismatch tf.sha256 (computeSHA256 env.rawArtifact)), st1)
              else if strTrails ".tar.gz" (lowerStr tf.filename) then
                match extractTarGz env.tarArchive installPath st1.fs with
                | (some e, fs2) => (.error e, { st1 with fs := fs2 })
                | (none, fs2) => postExtract env installPath v { st1 with fs := fs2 }
              else if strTrails ".zip" (lowerStr tf.filename) then
                match extractZip env.zipArchive installPath st1.fs with
                | (some e, fs2) => (.error e, { st1 with fs := fs2 })
                | (none, fs2) => postExtract env installPath v { st1 with fs := fs2 }
              else (.error (.unsupportedFormat tf.filename), st1)

/-- Environment for one `UninstallVersion` run: the result of
`exec.LookPath("go")` and config-file I/O health. -/
structure UninstallEnv where
  lookPathGo : Option Path
  configOk : Bool

/-- Go's `UninstallVersion`: not-installed check, active-version check against
`GetCurrentVersion`, recursive directory removal, then record removal. -/
def uninstallVersion (env : UninstallEnv) (vm : VM) (v : String) (st : St) :
    Except GvmError Unit × St :=
  if !isVersionInstalled st.fs vm v then (.error (.notInstalled v), st)
  else
    let current := getCurrentVersionOrEmpty env.lookPathGo vm
    if current = v then (.error (.activeVersionInUse v), st)
    else
      let installPath := goJoin vm.installDir v
      let fs' := st.fs.removeAll installPath
      if env.configOk then (.ok (), ⟨fs', removeVersion v st.config⟩)
      else (.error (.configFailed "failed to update config"), { st with fs := fs' })

/-- Environment for one `UseVersion` run: platform, shim directory
(`$HOME/.gvm/shims`), symlink syscall health, shell-config/profile edit
health (the startup-file edit itself is outside the modelled tree), and
config-file I/O health. -/
structure UseEnv where
  goos : String
  shimsDir : Path
  symlinkOk : Bool
  shellCfgOk : Bool
  configOk : Bool

/-- Go's `utils.UpdateShims`: ensure the shim directory, then either write
`go.cmd` (windows) or re-create the `go` symlink to the selected
version's binary. -/
def updateShims (env : UseEnv) (binDir : Path) (fs : FS) : Except GvmError FS :=
  match ensureDir fs env.shimsDir with
  | .error e => .error e
  | .ok fs1 =>
    if env.goos = "windows" then
      fs1.openWrite (env.shimsDir ++ ["go.cmd"]) (strBytes (renderPath (binDir ++ ["go.exe"]))) 420
    else
      let linkPath := env.shimsDir ++ ["go"]
      let fs2 := if fileExists fs1 linkPath then fs1.remove linkPath else fs1
      if env.symlinkOk then .ok (fs2.write linkPath (.symlink (binDir ++ ["go"])))
      else .error (.ioError "failed to create go shim symlink")

/-- Go's `UseVersion`: installed check, `SetCurrentVersion` in the config store
(state-store write happens first), then shim update and PATH integration. -/
def useVersion (env : UseEnv) (vm : VM) (v : String) (st : St) :
    Except GvmError Unit × St :=
  if !isVersionInstalled st.fs vm v then (.error (.notInstalled v), st)
  else
    let binDir := goJoin vm.installDir v ++ ["bin"]
    if !env.configOk then (.error (.configFailed "failed to update config"), st)
    else
      let st1 : St := { st with config := setCurrentVersion v st.config }
      match updateShims env binDir st1.fs with
      | .error e => (.error e, st1)
      | .ok fs2 =>
        let st2 : St := { st1 with fs := fs2 }
        if env.shellCfgOk then (.ok (), st2)
        else (.error (.ioError "failed to update shell config"), st2)

/-! ## Downloader (`utils.DownloadFileWithProgress`)

The HTTP response and every fallible syscall outcome are supplied by the
environment.  The 4MB `bufio` write buffer only reorders writes on the
success path and is abstracted; progress reporting is observability only
and is dropped.  A streaming read error after `k` bytes leaves `take k`
of the body in the temporary file just before its removal; a fallback
`io.Copy` error after `k` bytes leaves `take k` of the body at
`destPath`. -/

structure DlEnv where
  reqOk : Bool
  status : Nat
  body : List Nat
  readFailAfter : Option Nat
  tempOk : Bool
  tempName : String
  syncOk : Bool
  closeOk : Bool
  renameOk : Bool
  openFallbackOk : Bool
  copyFailAfter : Option Nat

/-- The temporary file `os.CreateTemp(dir, "gvm-download-*")` creates: in
the same directory as `destPath`, with the random suffix drawn from the
environment. -/
def tempPathOf (env : DlEnv) (destPath : Path) : Path :=
  parentOf destPath ++ [env.tempName]

/-- The rename-or-fallback tail of the downloader, given the filesystem
after the pre-rename removal of an existing `destPath`. -/
def dlMove (env : DlEnv) (destPath : Path) (fs3 : FS) : Option GvmError × FS :=
  if env.renameOk then
    match fs3.stat (tempPathOf env destPath) with
    | some node => (none, (fs3.remove (tempPathOf env destPath)).write destPath node)
    | none => (none, fs3)
  else if !env.openFallbackOk then
    (some (.ioError "failed to move file"), fs3.remove (tempPathOf env destPath))
  else
    match fs3.openWrite destPath [] 420 with
    | .error _ =>
      (some (.ioError "failed to move file"), fs3.remove (tempPathOf env destPath))
    | .ok fs4 =>
      match env.copyFailAfter with
      | some k =>
        (some (.ioError "failed to move file"),
          (fs4.write destPath (.file (env.body.take k) 420)).remove
            (tempPathOf env destPath))
      | none =>
        (none, (fs4.write destPath (.file env.body 420)).remove (tempPathOf env destPath))

/-- The post-close tail of the downloader: remove an existing `destPath`
(`os.Remove`, which would fail on a populated directory and is a no-op
here for a directory node), then rename or fall back to copy. -/
def dlFinish (env : DlEnv) (destPath : Path) (fs2 : FS) : Option GvmError × FS :=
  dlMove env destPath
    (match fs2.stat destPath with
     | some .dir => fs2
     | some _ => fs2.remove destPath
     | none => fs2)

def downloadFileWithProgress (env : DlEnv) (destPath : Path) (fs : FS) :
    Option GvmError × FS :=
  if !env.reqOk then (some (.netError "failed to download file"), fs)
  else if env.status ≠ 200 then (some (.badStatus env.status), fs)
  else
    match ensureDir fs (parentOf destPath) with
    | .error e => (some e, fs)
    | .ok fs0 =>
      if !env.tempOk then (some (.ioError "failed to create temp file"), fs0)
      else
        match fs0.openWrite (tempPathOf env destPath) [] 384 with
        | .error e => (some e, fs0)
        | .ok fs1 =>
          match env.readFailAfter with
          | some k =>
            ((some (.netError "failed to download file")),
              (fs1.write (tempPathOf env destPath) (.file (env.body.take k) 384)).remove
                (tempPathOf env destPath))
          | none =>
            if !env.syncOk then
              (some (.ioError "failed to flush file"),
                (fs1.write (tempPathOf env destPath) (.file env.body 384)).remove
                  (tempPathOf env destPath))
            else if !env.closeOk then
              (some (.ioError "failed to close temp file"),
                (fs1.write (tempPathOf env destPath) (.file env.body 384)).remove
                  (tempPathOf env destPath))
            else
              dlFinish env destPath
                (fs1.write (tempPathOf env destPath) (.file env.body 384))

/-! ## Basic lemmas about the filesystem and path model -/

theorem alookup_eraseKey {κ β : Type} [DecidableEq κ] (k p : κ) (l : List (κ × β)) :
    alookup k (eraseKey p l) = if k = p then none else alookup k l := by
  induction l with
  | nil => simp [alookup, eraseKey]
  | cons e es ih =>
    rw [eraseKey]
    by_cases hep : e.1 = p
    · rw [if_pos hep, ih, alookup_cons]
      by_cases hkp : k = p
      · simp [hkp]
      · rw [if_neg hkp, if_neg hkp, if_neg (fun h : e.1 = k => hkp (h.symm.trans hep))]
    · rw [if_neg hep, alookup_cons, alookup_cons, ih]
      by_cases hek : e.1 = k
      · rw [if_pos hek, if_pos hek, if_neg (fun h : k = p => hep (hek.trans h))]
      · rw [if_neg hek, if_neg hek]

theorem stat_write (fs : FS) (p q : Path) (n : FsNode) :
    (fs.write p n).stat q = if q = p then some n else fs.stat q := by
  simp only [FS.write, FS.stat, alookup_cons]
  rw [alookup_eraseKey]
  by_cases h : q = p
  · simp [h]
  · rw [if_neg h, if_neg h, if_neg (fun hh : p = q => h hh.symm)]

theorem stat_remove (fs : FS) (p q : Path) :
    (fs.remove p).stat q = if q = p then none else fs.stat q := by
  simp only [FS.remove, FS.stat]
  exact alookup_eraseKey q p fs.entries

theorem listLeads_refl {α : Type} [DecidableEq α] (l : List α) : listLeads l l = true := by
  induction l with
  | nil => rfl
  | cons a as ih => simp [listLeads, ih]

theorem alookup_eraseUnder {β : Type} (k p : Path) (l : List (Path × β)) :
    alookup k (eraseUnder p l) = if listLeads p k then none else alookup k l := by
  induction l with
  | nil => simp [alookup, eraseUnder]
  | cons e es ih =>
    rw [eraseUnder]
    by_cases hlp : listLeads p e.1 = true
    · rw [if_pos hlp, ih, alookup_cons]
      by_cases hk : listLeads p k = true
      · simp [hk]
      · rw [if_neg hk, if_neg hk, if_neg (fun h : e.1 = k => hk (h ▸ hlp))]
    · rw [if_neg hlp, alookup_cons, alookup_cons, ih]
      by_cases hek : e.1 = k
      · rw [if_pos hek, if_pos hek,
          if_neg (fun h : listLeads p k = true => hlp (hek.symm ▸ h))]
      · rw [if_neg hek, if_neg hek]

theorem stat_removeAll (fs : FS) (p q : Path) :
    (fs.removeAll p).stat q = if listLeads p q then none else fs.stat q := by
  simp only [FS.removeAll, FS.stat]
  exact alookup_eraseUnder q p fs.entries

theorem stat_removeAll_self (fs : FS) (p : Path) :
    (fs.removeAll p).stat p = none := by
  rw [stat_removeAll, listLeads_refl]; rfl

/-! Path cleaning on already-clean components. -/

theorem foldl_cleanStep_clean (l : List String) (h : cleanPath l = true) (acc : List String) :
    l.foldl cleanStep acc = acc ++ l := by
  induction l generalizing acc with
  | nil => simp
  | cons c cs ih =>
    rw [cleanPath, List.all_cons, Bool.and_eq_true] at h
    obtain ⟨hc, hcs⟩ := h
    simp only [Bool.and_eq_true, Bool.not_eq_true', decide_eq_false_iff_not] at hc
    obtain ⟨⟨h1, h2⟩, h3⟩ := hc
    simp only [List.foldl_cons, cleanStep]
    rw [if_neg (by tauto), if_neg h3, ih hcs (acc ++ [c])]
    simp

theorem cleanAbs_clean (p : Path) (h : cleanPath p = true) : cleanAbs p = p := by
  simpa using foldl_cleanStep_clean p h []

theorem cleanPath_append (p q : Path) (hp : cleanPath p = true) (hq : cleanPath q = true) :
    cleanPath (p ++ q) = true := by
  simp only [cleanPath, List.all_append, Bool.and_eq_true]
  exact ⟨hp, hq⟩

theorem plainComp_clean (n : String) (h : plainComp n = true) :
    cleanPath [n] = true := by
  simp only [plainComp, Bool.and_eq_true, decide_eq_true_eq, Bool.not_eq_true',
    decide_eq_false_iff_not] at h
  simp [cleanPath, h.1.1.2, h.1.2, h.2]

/-- Go's `filepath.Join(base, v)` appends a single plain component to a clean
rooted base. -/
theorem goJoin_plain (base : Path) (n : String) (hb : cleanPath base = true)
    (hn : plainComp n = true) : goJoin base n = base ++ [n] := by
  have hsplit : splitSlash n = [n] := by
    simp only [plainComp, Bool.and_eq_true, decide_eq_true_eq] at hn
    exact hn.1.1.1
  rw [goJoin, hsplit]
  exact cleanAbs_clean _ (cleanPath_append base [n] hb (plainComp_clean n hn))

/-! ## `MkdirAll` lemmas -/

theorem stat_foldl_mkdirOne (l : List Path) (fs : FS) (q : Path) :
    (l.foldl FS.mkdirOne fs).stat q =
      if q ∈ l ∧ fs.stat q = none then some .dir else fs.stat q := by
  induction l generalizing fs with
  | nil => simp
  | cons p ps ih =>
    rw [List.foldl_cons, ih]
    by_cases hqp : q = p
    · subst hqp
      cases hfs : fs.stat q with
      | some n => simp [FS.mkdirOne, hfs]
      | none =>
        have h1 : (fs.mkdirOne q).stat q = some .dir := by
          simp [FS.mkdirOne, hfs, stat_write]
        rw [h1]
        by_cases hmem : q ∈ ps <;> simp [hmem, h1, hfs, List.mem_cons]
    · have h1 : (fs.mkdirOne p).stat q = fs.stat q := by
        unfold FS.mkdirOne
        cases hfs : fs.stat p with
        | some n => rfl
        | none => simp [stat_write, hqp]
      rw [h1]
      by_cases hmem : q ∈ ps <;> simp [hmem, List.mem_cons, hqp]

theorem self_mem_ancestorsIncl (p : Path) (hp : p ≠ []) : p ∈ ancestorsIncl p := by
  have hlen : 0 < p.length := List.length_pos.mpr hp
  simp only [ancestorsIncl, List.mem_map, List.mem_range]
  exact ⟨p.length - 1, by omega, by simp [Nat.sub_add_cancel hlen]⟩

theorem mkdirAll_ok (fs : FS) (p : Path) (fs' : FS)
    (h : fs.mkdirAll p = .ok fs') :
    fs' = fs.mkdirAllOk p ∧ (ancestorsIncl p).all fs.dirOrAbsent = true := by
  unfold FS.mkdirAll at h
  by_cases hc : (ancestorsIncl p).all fs.dirOrAbsent = true
  · rw [if_pos hc] at h
    exact ⟨(Except.ok.injEq _ _ ▸ h).symm, hc⟩
  · rw [if_neg hc] at h
    exact absurd h (by simp)

theorem stat_mkdirAllOk (fs : FS) (p q : Path) :
    (fs.mkdirAllOk p).stat q =
      if q ∈ ancestorsIncl p ∧ fs.stat q = none then some .dir else fs.stat q :=
  stat_foldl_mkdirOne _ fs q

theorem mkdirAll_stat_self (fs : FS) (p : Path) (fs' : FS)
    (h : fs.mkdirAll p = .ok fs') (hp : p ≠ []) : fs'.stat p = some .dir := by
  obtain ⟨rfl, hall⟩ := mkdirAll_ok fs p _ h
  rw [stat_mkdirAllOk]
  cases hfs : fs.stat p with
  | none => simp [self_mem_ancestorsIncl p hp, hfs]
  | some n =>
    have := List.all_eq_true.mp hall p (self_mem_ancestorsIncl p hp)
    unfold FS.dirOrAbsent at this
    rw [hfs] at this
    cases n <;> simp_all

theorem mkdirAll_stat_isSome (fs : FS) (p q : Path) (fs' : FS)
    (h : fs.mkdirAll p = .ok fs') (hq : (fs.stat q).isSome) :
    (fs'.stat q).isSome := by
  obtain ⟨rfl, -⟩ := mkdirAll_ok fs p _ h
  rw [stat_mkdirAllOk]
  split
  · simp
  · exact hq

/-! ## `openWrite` and step lemmas -/

theorem openWrite_ok (fs : FS) (p : Path) (c : List Nat) (m : Nat) (fs' : FS)
    (h : fs.openWrite p c m = .ok fs') :
    ∃ m', fs' = fs.write p (.file c m') := by
  unfold FS.openWrite at h
  by_cases hdir : (!fs.isDirAt (parentOf p)) = true
  · rw [if_pos hdir] at h; exact absurd h (by simp)
  · rw [if_neg hdir] at h
    cases hstat : fs.stat p with
    | none => rw [hstat] at h; exact ⟨m, by simpa using h.symm⟩
    | some n =>
      rw [hstat] at h
      cases n with
      | dir => exact absurd h (by simp)
      | file c0 m0 => exact ⟨m0, by simpa using h.symm⟩
      | symlink t => exact ⟨m, by simpa using h.symm⟩

theorem openWrite_fresh (fs : FS) (p : Path) (c : List Nat) (m : Nat)
    (hdir : fs.isDirAt (parentOf p) = true) (hstat : fs.stat p = none) :
    fs.openWrite p c m = .ok (fs.write p (.file c m)) := by
  unfold FS.openWrite
  rw [if_neg (by simp [hdir]), hstat]

theorem openWrite_stat_isSome (fs : FS) (p : Path) (c : List Nat) (m : Nat)
    (fs' : FS) (h : fs.openWrite p c m = .ok fs') (q : Path)
    (hq : (fs.stat q).isSome) : (fs'.stat q).isSome := by
  obtain ⟨m', rfl⟩ := openWrite_ok fs p c m fs' h
  rw [stat_write]
  split <;> simp [hq]

theorem tarStep_stat_isSome (dest : Path) (fs : FS) (e : TarEntry) (fs' : FS)
    (h : tarStep dest fs e = .ok fs') (q : Path) (hq : (fs.stat q).isSome) :
    (fs'.stat q).isSome := by
  unfold tarStep at h
  split at h
  · exact mkdirAll_stat_isSome fs _ q fs' h hq
  · exact openWrite_stat_isSome fs _ _ _ fs' h q hq
  · injection h with h2; subst h2; exact hq

theorem zipStep_stat_isSome (dest : Path) (fs : FS) (e : ZipEntry) (fs' : FS)
    (h : zipStep dest fs e = .ok fs') (q : Path) (hq : (fs.stat q).isSome) :
    (fs'.stat q).isSome := by
  unfold zipStep at h
  by_cases hd : e.entryIsDir = true
  · rw [if_pos hd] at h
    exact mkdirAll_stat_isSome fs _ q fs' h hq
  · rw [if_neg hd] at h
    cases hmk : FS.mkdirAll fs (parentOf (goJoin dest (trimPre e.name "go/"))) with
    | error err => rw [hmk] at h; exact absurd h (by simp)
    | ok fs1 =>
      rw [hmk] at h
      exact openWrite_stat_isSome fs1 _ _ _ fs' h q
        (mkdirAll_stat_isSome fs _ q fs1 hmk hq)

theorem runSteps_stat_isSome {α : Type} (step : FS → α → Except GvmError FS)
    (hstep : ∀ fs e fs', step fs e = .ok fs' → ∀ q, (fs.stat q).isSome → (fs'.stat q).isSome)
    (l : List α) (fs : FS) (q : Path) (hq : (fs.stat q).isSome)
    (hrun : (runSteps step fs l).1 = none) :
    ((runSteps step fs l).2.stat q).isSome := by
  induction l generalizing fs with
  | nil => simpa [runSteps] using hq
  | cons e es ih =>
    rw [runSteps] at hrun ⊢
    cases hse : step fs e with
    | error err => rw [hse] at hrun; simp at hrun
    | ok fs1 =>
      rw [hse] at hrun
      exact ih fs1 (hstep fs e fs1 hse q hq) hrun

/-! ## Case-folding lemmas -/

theorem eqFoldChars_iff (a b : List Char) :
    eqFoldChars a b = true ↔ a.map lowerChar = b.map lowerChar := by
  induction a generalizing b with
  | nil => cases b <;> simp [eqFoldChars]
  | cons x xs ih =>
    cases b with
    | nil => simp [eqFoldChars]
    | cons y ys =>
      rw [eqFoldChars]
      by_cases h : lowerChar x = lowerChar y
      · simp [h, ih]
      · simp [h]

theorem eqFold_iff (a b : String) :
    eqFold a b = true ↔ lowerStr a = lowerStr b := by
  rw [eqFold, eqFoldChars_iff, lowerStr, lowerStr]
  constructor
  · intro h; exact congrArg String.mk h
  · intro h; exact congrArg String.toList h

/-! ## Config-map lemmas -/

theorem alookup_assocSet_self (m : List (String × VersionInfo)) (k : String)
    (v : VersionInfo) : alookup k (assocSet m k v) = some v := by
  unfold assocSet
  by_cases h : (alookup k m).isSome
  · rw [if_pos h]
    induction m with
    | nil => simp [alookup] at h
    | cons e es ih =>
      rw [alookup_cons] at h
      by_cases hek : e.1 = k
      · simp [alookup_cons, hek]
      · rw [if_neg hek] at h
        simpa [alookup_cons, hek] using ih h
  · rw [if_neg h]
    induction m with
    | nil => simp [alookup]
    | cons e es ih =>
      rw [alookup_cons] at h
      by_cases hek : e.1 = k
      · rw [if_pos hek] at h; simp at h
      · rw [if_neg hek] at h
        simpa [alookup_cons, hek] using ih h

theorem alookup_map_setKey (m : List (String × VersionInfo)) (k k' : String)
    (v : VersionInfo) (hne : k' ≠ k) :
    alookup k' (m.map (fun e => if e.1 = k then (k, v) else e)) = alookup k' m := by
  induction m with
  | nil => simp
  | cons e es ih =>
    simp only [List.map_cons, alookup_cons]
    by_cases hek : e.1 = k
    · rw [if_pos hek]
      rw [show ((k, v) : String × VersionInfo).1 = k from rfl] at *
      rw [if_neg (fun hh : k = k' => hne hh.symm), if_neg (fun hh : e.1 = k' => hne (hh ▸ hek.symm ▸ rfl)), ih]
    · rw [if_neg hek]
      by_cases hek' : e.1 = k'
      · rw [if_pos hek', if_pos hek']
      · rw [if_neg hek', if_neg hek', ih]

theorem alookup_append_one (m : List (String × VersionInfo)) (k k' : String)
    (v : VersionInfo) (hne : k' ≠ k) :
    alookup k' (m ++ [(k, v)]) = alookup k' m := by
  induction m with
  | nil =>
    rw [List.nil_append, alookup_cons]
    rw [if_neg (fun hh : (k, v).1 = k' => hne (hh ▸ rfl))]
  | cons e es ih =>
    simp only [List.cons_append, alookup_cons]
    by_cases hek' : e.1 = k'
    · rw [if_pos hek', if_pos hek']
    · rw [if_neg hek', if_neg hek', ih]

theorem alookup_assocSet_other (m : List (String × VersionInfo)) (k k' : String)
    (v : VersionInfo) (hne : k' ≠ k) :
    alookup k' (assocSet m k v) = alookup k' m := by
  unfold assocSet
  by_cases h : (alookup k m).isSome
  · rw [if_pos h]; exact alookup_map_setKey m k k' v hne
  · rw [if_neg h]; exact alookup_append_one m k k' v hne

theorem alookup_assocRemove (m : List (String × VersionInfo)) (k k' : String) :
    alookup k' (assocRemove m k) = if k' = k then none else alookup k' m :=
  alookup_eraseKey k' k m

/-- Deactivating every record (`SetCurrentVersion`'s first loop) maps the
values and keeps the keys. -/
theorem alookup_map_deactivate (m : List (String × VersionInfo)) (k : String) :
    alookup k (m.map (fun e => (e.1, { e.2 with active := false }))) =
      (alookup k m).map (fun i => { i with active := false }) := by
  induction m with
  | nil => simp
  | cons e es ih =>
    simp only [List.map_cons, alookup_cons]
    by_cases hek : e.1 = k
    · rw [if_pos hek, if_pos hek]; rfl
    · rw [if_neg hek, if_neg hek, ih]

/-! # Claims -/

set_option maxRecDepth 40000 in
/-- C3.  For every file (byte content) and every expected digest string,
`VerifySHA256` succeeds if and only if the computed SHA-256 digest of the
file's bytes is case-insensitively equal to the expected hex string; and,
at a concrete instance, changing a single byte of the file changes the
digest and makes verification against the old digest fail.  (The
instance stands in for the universally-quantified corruption clause:
whether SHA-256 has *no* single-byte collisions anywhere is a
cryptographic conjecture no implementation proof can settle.) -/
theorem C3_verify_iff_digest_matches :
    (∀ (content : List Nat) (expected : String),
        verifySHA256 content expected = .ok () ↔
          lowerStr (computeSHA256 content) = lowerStr expected)
    ∧ computeSHA256 [97, 98, 99] ≠ computeSHA256 [97, 98, 100]
    ∧ verifySHA256 [97, 98, 100] (computeSHA256 [97, 98, 99]) ≠ .ok () := by
  refine ⟨?_, by decide, by decide⟩
  intro content expected
  unfold verifySHA256
  by_cases h : eqFold (computeSHA256 content) expected = true
  · simp only [h, if_true]
    simp [(eqFold_iff _ _).mp h]
  · simp only [h, if_false]
    constructor
    · intro hc; simp at hc
    · intro hc; exact absurd ((eqFold_iff _ _).mpr hc) h

set_option maxRecDepth 40000 in
/-- Witness for C3: the iff, applied to a concrete file and an upper-case
expected digest. -/
theorem C3_witness :
    verifySHA256 [97, 98, 99]
      "BA7816BF8F01CFEA414140DE5DAE2223B00361A396177A9CB410FF61F20015AD" = .ok () :=
  (C3_verify_iff_digest_matches.1 _ _).mpr (by decide)

/-- A tar entry whose type flag is neither directory nor regular file is a
no-op for the extraction loop. -/
theorem tarStep_skip (dest : Path) (fs : FS) (e : TarEntry)
    (hd : e.typeflag ≠ .dir) (hr : e.typeflag ≠ .reg) :
    tarStep dest fs e = .ok fs := by
  unfold tarStep
  cases htf : e.typeflag with
  | dir => exact absurd htf hd
  | reg => exact absurd htf hr
  | symlink => rfl
  | hardlink => rfl
  | other code => rfl

theorem runSteps_middle_skip {α : Type} (step : FS → α → Except GvmError FS)
    (e : α) (hskip : ∀ fs, step fs e = .ok fs) (es1 es2 : List α) (fs : FS) :
    runSteps step fs (es1 ++ e :: es2) = runSteps step fs (es1 ++ es2) := by
  induction es1 generalizing fs with
  | nil =>
    rw [List.nil_append, List.nil_append, runSteps_cons, hskip fs]
  | cons a as ih =>
    rw [List.cons_append, List.cons_append, runSteps_cons, runSteps_cons]
    cases step fs a with
    | error err => rfl
    | ok fs1 => exact ih fs1

/-- C10.  A tar entry whose type flag is neither directory nor regular
file (symlink, hard link, ...) is silently skipped: the whole extraction
behaves exactly as if the entry were absent, and extracting just such an
entry succeeds creating nothing beyond the destination directory itself. -/
theorem C10_tar_skips_special_entries (dest : Path) (fs : FS)
    (es1 es2 : List TarEntry) (e : TarEntry)
    (hd : e.typeflag ≠ .dir) (hr : e.typeflag ≠ .reg) :
    extractTarGz (es1 ++ e :: es2) dest fs = extractTarGz (es1 ++ es2) dest fs
    ∧ ∀ fs0, fs.mkdirAll dest = .ok fs0 → extractTarGz [e] dest fs = (none, fs0) := by
  constructor
  · unfold extractTarGz
    cases fs.mkdirAll dest with
    | error err => rfl
    | ok fs1 => exact runSteps_middle_skip _ e (fun fs' => tarStep_skip dest fs' e hd hr) es1 es2 fs1
  · intro fs0 hmk
    unfold extractTarGz
    rw [hmk]
    show runSteps (tarStep dest) fs0 [e] = (none, fs0)
    rw [runSteps_cons, tarStep_skip dest fs0 e hd hr]
    rfl

/-- Witness for C10: a concrete symlink entry between two regular entries
is skipped, and alone it produces nothing. -/
theorem C10_witness :
    extractTarGz [⟨"go/a", .reg, 420, [1]⟩, ⟨"go/s", .symlink, 511, []⟩,
        ⟨"go/b", .reg, 420, [2]⟩] ["d"] ⟨[]⟩ =
      extractTarGz [⟨"go/a", .reg, 420, [1]⟩, ⟨"go/b", .reg, 420, [2]⟩] ["d"] ⟨[]⟩
    ∧ extractTarGz [⟨"go/s", TarType.symlink, 511, []⟩] ["d"] ⟨[]⟩ =
        (none, FS.mkdirAllOk ⟨[]⟩ ["d"]) := by
  have h := C10_tar_skips_special_entries ["d"] ⟨[]⟩
    [⟨"go/a", .reg, 420, [1]⟩] [⟨"go/b", .reg, 420, [2]⟩]
    ⟨"go/s", .symlink, 511, []⟩ (by decide) (by decide)
  have h2 := C10_tar_skips_special_entries ["d"] (⟨[]⟩ : FS) [] []
    ⟨"go/s", .symlink, 511, []⟩ (by decide) (by decide)
  exact ⟨h.1, by
    have := h2.2 (FS.mkdirAllOk ⟨[]⟩ ["d"]) (by decide)
    simpa using this⟩

/-- C9 counterexample: `IsVersionInstalled` is an `os.Stat` existence
check, so a plain *file* at `<installDir>/<version>` already counts as
installed even though no directory exists there. -/
theorem C9_counterexample :
    isVersionInstalled
        ⟨[(["home", "u", ".gvm", "versions", "go1.0"], .file [1] 420),
          (["home", "u", ".gvm", "versions"], .dir)]⟩
        ⟨["home", "u", ".gvm", "versions"]⟩ "go1.0" = true
    ∧ FS.stat
        ⟨[(["home", "u", ".gvm", "versions", "go1.0"], .file [1] 420),
          (["home", "u", ".gvm", "versions"], .dir)]⟩
        (goJoin ["home", "u", ".gvm", "versions"] "go1.0") ≠ some .dir := by
  constructor
  · decide
  · decide

/-- C9 (amended).  `IsVersionInstalled(version)` returns true iff a
filesystem entry of any kind exists at `<installDir>/<version>`,
independently of the persisted configuration: a version recorded in the
state store whose entry is gone reports not installed, and an entry
present without a record reports installed. -/
theorem C9_installed_iff_entry :
    (∀ (fs : FS) (vm : VM) (v : String),
        isVersionInstalled fs vm v = true ↔
          (fs.stat (goJoin vm.installDir v)).isSome = true)
    ∧ (∀ (st : St) (vm : VM) (v : String),
        (alookup v st.config.versions).isSome = true →
        st.fs.stat (goJoin vm.installDir v) = none →
        isVersionInstalled st.fs vm v = false)
    ∧ (∀ (st : St) (vm : VM) (v : String),
        alookup v st.config.versions = none →
        (st.fs.stat (goJoin vm.installDir v)).isSome = true →
        isVersionInstalled st.fs vm v = true) := by
  refine ⟨fun fs vm v => Iff.rfl, ?_, ?_⟩
  · intro st vm v _ hstat
    simp [isVersionInstalled, hstat]
  · intro st vm v _ hstat
    simpa [isVersionInstalled] using hstat

/-! ## Final-config shape of the three mutating operations -/

theorem postExtract_config (env : InstallEnv) (p : Path) (v : String) (st : St) :
    (postExtract env p v st).2.config = st.config ∨
    (postExtract env p v st).2.config = addVersion env.now v st.config := by
  unfold postExtract
  split
  · left; rfl
  · split
    · left; rfl
    · split
      · left; rfl
      · split
        · right; rfl
        · left; rfl

theorem installVersion_config (env : InstallEnv) (vm : VM) (v : String) (st : St) :
    (installVersion env vm v st).2.config = st.config ∨
    (installVersion env vm v st).2.config = addVersion env.now v st.config := by
  simp only [installVersion]
  split
  · left; rfl
  · split
    · left; rfl
    · split
      · left; rfl
      · split
        · left; rfl
        · split
          · left; rfl
          · split
            · left; rfl
            · split
              · left; rfl
              · split
                · split
                  · left; rfl
                  · exact postExtract_config env _ v _
                · split
                  · split
                    · left; rfl
                    · exact postExtract_config env _ v _
                  · left; rfl

theorem uninstallVersion_config (env : UninstallEnv) (vm : VM) (v : String) (st : St) :
    (uninstallVersion env vm v st).2.config = st.config ∨
    (uninstallVersion env vm v st).2.config = removeVersion v st.config := by
  simp only [uninstallVersion]
  split
  · left; rfl
  · split
    · left; rfl
    · split
      · right; rfl
      · left; rfl

theorem useVersion_config (env : UseEnv) (vm : VM) (v : String) (st : St) :
    (useVersion env vm v st).2.config = st.config ∨
    (useVersion env vm v st).2.config = setCurrentVersion v st.config := by
  simp only [useVersion]
  split
  · left; rfl
  · split
    · left; rfl
    · split
      · right; rfl
      · split
        · right; rfl
        · right; rfl

/-- C7 counterexample: starting from a configuration satisfying the
invariant, a successful `UseVersion` of a version whose directory exists
but which has no record leaves `currentVersion` pointing at a key absent
from the versions map (the installed check consults only the filesystem). -/
theorem C7_counterexample :
    configInv (⟨"", "", []⟩ : Config)
    ∧ (useVersion ⟨"linux", ["home", "u", ".gvm", "shims"], true, true, true⟩
        ⟨["home", "u", ".gvm", "versions"]⟩ "go1.0"
        ⟨⟨[(["home", "u", ".gvm", "versions", "go1.0"], .dir)]⟩, ⟨"", "", []⟩⟩).1 = .ok ()
    ∧ ¬ configInv (useVersion ⟨"linux", ["home", "u", ".gvm", "shims"], true, true, true⟩
        ⟨["home", "u", ".gvm", "versions"]⟩ "go1.0"
        ⟨⟨[(["home", "u", ".gvm", "versions", "go1.0"], .dir)]⟩, ⟨"", "", []⟩⟩).2.config := by
  refine ⟨by decide, by decide, by decide⟩

/-- C7 (amended).  The configuration invariant — `currentVersion` is
empty, "system", or a key of the versions map — is preserved by
`AddVersion` and `RemoveVersion` unconditionally, by the whole
`InstallVersion` and `UninstallVersion` operations, and by
`SetCurrentVersion`/`UseVersion` provided the activated version is empty,
"system", or recorded in the versions map; `UseVersion` checks only the
filesystem, so activating an unrecorded version directory violates the
invariant (see the counterexample). -/
theorem C7_invariant_preservation :
    (∀ (now v : String) (c : Config), configInv c → configInv (addVersion now v c))
    ∧ (∀ (v : String) (c : Config), configInv c → configInv (removeVersion v c))
    ∧ (∀ (v : String) (c : Config),
        (v = "" ∨ v = "system" ∨ (alookup v c.versions).isSome = true) →
        configInv (setCurrentVersion v c))
    ∧ (∀ (env : InstallEnv) (vm : VM) (v : String) (st : St), configInv st.config →
        configInv (installVersion env vm v st).2.config)
    ∧ (∀ (env : UninstallEnv) (vm : VM) (v : String) (st : St), configInv st.config →
        configInv (uninstallVersion env vm v st).2.config)
    ∧ (∀ (env : UseEnv) (vm : VM) (v : String) (st : St), configInv st.config →
        (v = "" ∨ v = "system" ∨ (alookup v st.config.versions).isSome = true) →
        configInv (useVersion env vm v st).2.config) := by
  have hadd : ∀ (now v : String) (c : Config), configInv c → configInv (addVersion now v c) := by
    intro now v c hc
    unfold configInv addVersion at *
    rcases hc with h | h | h
    · left; exact h
    · right; left; exact h
    · right; right
      by_cases hcv : c.currentVersion = v
      · rw [hcv]; rw [alookup_assocSet_self]; rfl
      · rw [alookup_assocSet_other _ _ _ _ hcv]; exact h
  have hrem : ∀ (v : String) (c : Config), configInv c → configInv (removeVersion v c) := by
    intro v c hc
    unfold removeVersion
    by_cases hcv : c.currentVersion = v
    · simp only [hcv, if_pos rfl]
      left; rfl
    · rw [if_neg hcv]
      unfold configInv at *
      rcases hc with h | h | h
      · left; exact h
      · right; left; exact h
      · right; right
        show (alookup c.currentVersion (assocRemove c.versions v)).isSome = true
        rw [alookup_assocRemove, if_neg hcv]; exact h
  have hset : ∀ (v : String) (c : Config),
      (v = "" ∨ v = "system" ∨ (alookup v c.versions).isSome = true) →
      configInv (setCurrentVersion v c) := by
    intro v c hv
    simp only [setCurrentVersion]
    unfold configInv
    rcases hv with h | h | h
    · left; exact h
    · right; left; exact h
    · right; right
      show (alookup v _).isSome = true
      rw [alookup_map_deactivate]
      cases hl : alookup v c.versions with
      | none => rw [hl] at h; simp at h
      | some info =>
        simp only [hl, Option.map_some']
        rw [alookup_assocSet_self]; rfl
  refine ⟨hadd, hrem, hset, ?_, ?_, ?_⟩
  · intro env vm v st hc
    rcases installVersion_config env vm v st with h | h
    · rw [h]; exact hc
    · rw [h]; exact hadd env.now v st.config hc
  · intro env vm v st hc
    rcases uninstallVersion_config env vm v st with h | h
    · rw [h]; exact hc
    · rw [h]; exact hrem v st.config hc
  · intro env vm v st hc hv
    rcases useVersion_config env vm v st with h | h
    · rw [h]; exact hc
    · rw [h]; exact hset v st.config hv

/-- Witness for C7: the `UseVersion` clause applied to a recorded,
installed version preserves the invariant. -/
theorem C7_witness :
    configInv (useVersion ⟨"linux", ["home", "u", ".gvm", "shims"], true, true, true⟩
      ⟨["home", "u", ".gvm", "versions"]⟩ "go1.0"
      ⟨⟨[(["home", "u", ".gvm", "versions", "go1.0"], .dir)]⟩,
       ⟨"", "", [("go1.0", ⟨"2024-01-01 00:00:00", false⟩)]⟩⟩).2.config :=
  C7_invariant_preservation.2.2.2.2.2 _ _ _ _ (by decide) (by decide)

/-! Filesystem operations only ever produce `ioError`s. -/

theorem mkdirAll_error (fs : FS) (p : Path) (e : GvmError)
    (h : fs.mkdirAll p = .error e) : ∃ s, e = .ioError s := by
  unfold FS.mkdirAll at h
  split at h
  · exact absurd h (by simp)
  · exact ⟨_, by simpa using h.symm⟩

theorem ensureDir_error (fs : FS) (p : Path) (e : GvmError)
    (h : ensureDir fs p = .error e) : ∃ s, e = .ioError s := by
  unfold ensureDir at h
  split at h
  · exact absurd h (by simp)
  · exact mkdirAll_error fs p e h

theorem openWrite_error (fs : FS) (p : Path) (c : List Nat) (m : Nat) (e : GvmError)
    (h : fs.openWrite p c m = .error e) : ∃ s, e = .ioError s := by
  unfold FS.openWrite at h
  split at h
  · exact ⟨_, by simpa using h.symm⟩
  · split at h
    · exact ⟨_, by simpa using h.symm⟩
    · exact absurd h (by simp)
    · exact absurd h (by simp)
    · exact absurd h (by simp)

theorem tarStep_error (dest : Path) (fs : FS) (en : TarEntry) (e : GvmError)
    (h : tarStep dest fs en = .error e) : ∃ s, e = .ioError s := by
  unfold tarStep at h
  split at h
  · exact mkdirAll_error fs _ e h
  · exact openWrite_error fs _ _ _ e h
  · exact absurd h (by simp)

theorem zipStep_error (dest : Path) (fs : FS) (en : ZipEntry) (e : GvmError)
    (h : zipStep dest fs en = .error e) : ∃ s, e = .ioError s := by
  simp only [zipStep] at h
  split at h
  · exact mkdirAll_error fs _ e h
  · split at h
    · rename_i err heq
      have herr : err = e := by simpa using h
      exact herr ▸ mkdirAll_error _ _ err heq
    · exact openWrite_error _ _ _ _ e h

theorem runSteps_error {α : Type} (step : FS → α → Except GvmError FS)
    (hstep : ∀ fs en e, step fs en = .error e → ∃ s, e = .ioError s)
    (l : List α) (fs : FS) (e : GvmError)
    (h : (runSteps step fs l).1 = some e) : ∃ s, e = .ioError s := by
  induction l generalizing fs with
  | nil => rw [runSteps_nil] at h; simp at h
  | cons a as ih =>
    rw [runSteps_cons] at h
    cases hs : step fs a with
    | error err =>
      rw [hs] at h
      simp only at h
      exact (Option.some.injEq _ _ ▸ h : err = e) ▸ hstep fs a err hs
    | ok fs1 =>
      rw [hs] at h
      exact ih fs1 h

theorem extractTarGz_error (ar : List TarEntry) (dest : Path) (fs : FS) (e : GvmError)
    (h : (extractTarGz ar dest fs).1 = some e) : ∃ s, e = .ioError s := by
  unfold extractTarGz at h
  cases hmk : fs.mkdirAll dest with
  | error err =>
    rw [hmk] at h
    simp only at h
    exact (Option.some.injEq _ _ ▸ h : err = e) ▸ mkdirAll_error fs dest err hmk
  | ok fs1 =>
    rw [hmk] at h
    exact runSteps_error _ (tarStep_error dest) ar fs1 e h

theorem extractZip_error (ar : List ZipEntry) (dest : Path) (fs : FS) (e : GvmError)
    (h : (extractZip ar dest fs).1 = some e) : ∃ s, e = .ioError s := by
  unfold extractZip at h
  cases hmk : fs.mkdirAll dest with
  | error err =>
    rw [hmk] at h
    simp only at h
    exact (Option.some.injEq _ _ ▸ h : err = e) ▸ mkdirAll_error fs dest err hmk
  | ok fs1 =>
    rw [hmk] at h
    exact runSteps_error _ (zipStep_error dest) ar fs1 e h

/-- No branch of the validation tail can report a digest mismatch. -/
theorem postExtract_no_shaMismatch (env : InstallEnv) (p : Path) (v : String)
    (st : St) (e g : String) :
    (postExtract env p v st).1 ≠ .error (.shaMismatch e g) := by
  unfold postExtract
  split
  · simp
  · split
    · simp
    · split
      · simp
      · split
        · simp
        · simp

/-- C6.  When the catalog's artifact carries an empty expected digest,
`InstallVersion` skips verification entirely: the run does not depend on
the downloaded bytes at all, and no digest-mismatch error can be
produced. -/
theorem C6_empty_digest_skips_verification
    (env : InstallEnv) (vm : VM) (v : String) (st : St)
    (avail : List GoVersion) (tv : GoVersion) (tf : GoFile)
    (hcat : env.catalog = .ok avail)
    (htv : avail.find? (fun gv => gv.version = v) = some tv)
    (htf : tv.files.find? (fun f => f.os = env.goos && f.arch = env.goarch) = some tf)
    (hsha : tf.sha256 = "") :
    (∀ other : List Nat,
        installVersion { env with rawArtifact := other } vm v st =
          installVersion env vm v st)
    ∧ (∀ e g, (installVersion env vm v st).1 ≠ .error (.shaMismatch e g)) := by
  have hpe : ∀ (c : Except GvmError (List GoVersion)) (raw : List Nat) (p : Path) (stx : St),
      postExtract { env with catalog := c, rawArtifact := raw } p v stx =
        postExtract env p v stx :=
    fun _ _ _ _ => rfl
  constructor
  · intro other
    simp only [installVersion, hcat, htv, htf, hsha, hpe]
    simp
  · intro e g
    simp only [installVersion, hcat, htv, htf, hsha]
    simp only [ne_eq, eq_self_iff_true, not_true, false_and, if_false]
    split
    · simp
    · split
      · simp
      · split
        · rename_i e1 heq
          obtain ⟨s, rfl⟩ := ensureDir_error _ _ _ heq
          simp
        · split
          · split
            · rename_i e1 fs2 heq
              obtain ⟨s, rfl⟩ := extractTarGz_error _ _ _ e1 (by rw [heq])
              simp
            · exact postExtract_no_shaMismatch env _ v _ e g
          · split
            · split
              · rename_i e1 fs2 heq
                obtain ⟨s, rfl⟩ := extractZip_error _ _ _ e1 (by rw [heq])
                simp
              · exact postExtract_no_shaMismatch env _ v _ e g
            · simp

/-- Witness for C6: a concrete catalog entry with an empty digest installs
identically for two different downloaded byte strings, and never reports a
mismatch. -/
theorem C6_witness :
    (installVersion
        { catalog := .ok [⟨"go1.21.5", true,
            [⟨"go1.21.5.linux-amd64.tar.gz", "linux", "amd64", "go1.21.5", "", 9⟩]⟩],
          goos := "linux", goarch := "amd64", downloadOk := true, rawArtifact := [1, 2],
          tarArchive := [], zipArchive := [], now := "2024-01-01", configOk := true }
        ⟨["home", "u", ".gvm", "versions"]⟩ "go1.21.5" ⟨⟨[]⟩, ⟨"", "", []⟩⟩ =
      installVersion
        { catalog := .ok [⟨"go1.21.5", true,
            [⟨"go1.21.5.linux-amd64.tar.gz", "linux", "amd64", "go1.21.5", "", 9⟩]⟩],
          goos := "linux", goarch := "amd64", downloadOk := true, rawArtifact := [7],
          tarArchive := [], zipArchive := [], now := "2024-01-01", configOk := true }
        ⟨["home", "u", ".gvm", "versions"]⟩ "go1.21.5" ⟨⟨[]⟩, ⟨"", "", []⟩⟩)
    ∧ (installVersion
        { catalog := .ok [⟨"go1.21.5", true,
            [⟨"go1.21.5.linux-amd64.tar.gz", "linux", "amd64", "go1.21.5", "", 9⟩]⟩],
          goos := "linux", goarch := "amd64", downloadOk := true, rawArtifact := [7],
          tarArchive := [], zipArchive := [], now := "2024-01-01", configOk := true }
        ⟨["home", "u", ".gvm", "versions"]⟩ "go1.21.5" ⟨⟨[]⟩, ⟨"", "", []⟩⟩).1 ≠
      .error (.shaMismatch "" "x") := by
  have h := C6_empty_digest_skips_verification
    { catalog := .ok [⟨"go1.21.5", true,
        [⟨"go1.21.5.linux-amd64.tar.gz", "linux", "amd64", "go1.21.5", "", 9⟩]⟩],
      goos := "linux", goarch := "amd64", downloadOk := true, rawArtifact := [7],
      tarArchive := [], zipArchive := [], now := "2024-01-01", configOk := true }
    ⟨["home", "u", ".gvm", "versions"]⟩ "go1.21.5" ⟨⟨[]⟩, ⟨"", "", []⟩⟩
    [⟨"go1.21.5", true,
      [⟨"go1.21.5.linux-amd64.tar.gz", "linux", "amd64", "go1.21.5", "", 9⟩]⟩]
    ⟨"go1.21.5", true,
      [⟨"go1.21.5.linux-amd64.tar.gz", "linux", "amd64", "go1.21.5", "", 9⟩]⟩
    ⟨"go1.21.5.linux-amd64.tar.gz", "linux", "amd64", "go1.21.5", "", 9⟩
    rfl (by decide) (by decide) rfl
  exact ⟨h.1 [1, 2], h.2 "" "x"⟩

/-- Go's `RemoveVersion` always erases the record. -/
theorem removeVersion_versions (v : String) (c : Config) :
    (removeVersion v c).versions = assocRemove c.versions v := by
  simp only [removeVersion]
  split <;> rfl

/-- Go's `RemoveVersion` keeps `currentVersion` when it differed. -/
theorem removeVersion_currentVersion (v : String) (c : Config)
    (h : c.currentVersion ≠ v) :
    (removeVersion v c).currentVersion = c.currentVersion := by
  simp only [removeVersion]
  rw [if_neg (by exact h)]

/-- C4.  `UninstallVersion` fails with the not-installed error when the
version is not installed and with the active-version-in-use error when it
is the currently active one (as reported by `GetCurrentVersion`, i.e.
derived from the `go` binary found on the search path), leaving the state
unchanged in both cases; for a non-active installed version it removes
the installation directory recursively, deletes the record, and keeps
`currentVersion` whenever it differed from the uninstalled version. -/
theorem C4_uninstall_behaviour (env : UninstallEnv) (vm : VM) (v : String) (st : St) :
    (isVersionInstalled st.fs vm v = false →
      uninstallVersion env vm v st = (.error (.notInstalled v), st))
    ∧ (isVersionInstalled st.fs vm v = true →
       getCurrentVersionOrEmpty env.lookPathGo vm = v →
       uninstallVersion env vm v st = (.error (.activeVersionInUse v), st))
    ∧ (isVersionInstalled st.fs vm v = true →
       getCurrentVersionOrEmpty env.lookPathGo vm ≠ v →
       env.configOk = true →
       (uninstallVersion env vm v st).1 = .ok ()
       ∧ (uninstallVersion env vm v st).2.fs = st.fs.removeAll (goJoin vm.installDir v)
       ∧ (uninstallVersion env vm v st).2.fs.stat (goJoin vm.installDir v) = none
       ∧ alookup v (uninstallVersion env vm v st).2.config.versions = none
       ∧ (st.config.currentVersion ≠ v →
          (uninstallVersion env vm v st).2.config.currentVersion =
            st.config.currentVersion)) := by
  refine ⟨?_, ?_, ?_⟩
  · intro h
    simp [uninstallVersion, h]
  · intro h hcur
    simp [uninstallVersion, h, hcur]
  · intro h hcur hcfg
    have hrw : uninstallVersion env vm v st =
        (.ok (), ⟨st.fs.removeAll (goJoin vm.installDir v), removeVersion v st.config⟩) := by
      simp only [uninstallVersion, h, Bool.not_true, Bool.false_eq_true, if_false, hcfg,
        if_true]
      rw [if_neg hcur]
    rw [hrw]
    refine ⟨rfl, rfl, stat_removeAll_self _ _, ?_, ?_⟩
    · show alookup v (removeVersion v st.config).versions = none
      rw [removeVersion_versions, alookup_assocRemove, if_pos rfl]
    · intro hne
      exact removeVersion_currentVersion v st.config hne

/-- Witness for C4: uninstalling the non-active installed version
`go1.21.0` while `go1.22.0` is active removes the directory and the
record and keeps `currentVersion`. -/
theorem C4_witness :
    (uninstallVersion ⟨some ["home", "u", ".gvm", "shims", "go"], true⟩
        ⟨["home", "u", ".gvm", "versions"]⟩ "go1.21.0"
        ⟨⟨[(["home", "u", ".gvm", "versions", "go1.21.0"], .dir),
           (["home", "u", ".gvm", "versions", "go1.22.0"], .dir)]⟩,
         ⟨"go1.22.0", "", [("go1.21.0", ⟨"d1", false⟩), ("go1.22.0", ⟨"d2", true⟩)]⟩⟩).1 = .ok ()
    ∧ alookup "go1.21.0"
        (uninstallVersion ⟨some ["home", "u", ".gvm", "shims", "go"], true⟩
          ⟨["home", "u", ".gvm", "versions"]⟩ "go1.21.0"
          ⟨⟨[(["home", "u", ".gvm", "versions", "go1.21.0"], .dir),
             (["home", "u", ".gvm", "versions", "go1.22.0"], .dir)]⟩,
           ⟨"go1.22.0", "", [("go1.21.0", ⟨"d1", false⟩),
            ("go1.22.0", ⟨"d2", true⟩)]⟩⟩).2.config.versions = none
    ∧ (uninstallVersion ⟨some ["home", "u", ".gvm", "shims", "go"], true⟩
        ⟨["home", "u", ".gvm", "versions"]⟩ "go1.21.0"
        ⟨⟨[(["home", "u", ".gvm", "versions", "go1.21.0"], .dir),
           (["home", "u", ".gvm", "versions", "go1.22.0"], .dir)]⟩,
         ⟨"go1.22.0", "", [("go1.21.0", ⟨"d1", false⟩),
          ("go1.22.0", ⟨"d2", true⟩)]⟩⟩).2.config.currentVersion = "go1.22.0" := by
  have h := (C4_uninstall_behaviour ⟨some ["home", "u", ".gvm", "shims", "go"], true⟩
    ⟨["home", "u", ".gvm", "versions"]⟩ "go1.21.0"
    ⟨⟨[(["home", "u", ".gvm", "versions", "go1.21.0"], .dir),
       (["home", "u", ".gvm", "versions", "go1.22.0"], .dir)]⟩,
     ⟨"go1.22.0", "", [("go1.21.0", ⟨"d1", false⟩),
      ("go1.22.0", ⟨"d2", true⟩)]⟩⟩).2.2 (by decide) (by decide) rfl
  exact ⟨h.1, h.2.2.2.1, (h.2.2.2.2 (by decide)).trans rfl⟩

/-! ## Success/failure shape of the install pipeline -/

theorem postExtract_result (env : InstallEnv) (p : Path) (v : String) (st : St) :
    (postExtract env p v st).1 = .ok () ∨
    ((postExtract env p v st).1 ≠ .ok ()
      ∧ (postExtract env p v st).2.config = st.config) := by
  unfold postExtract
  split
  · right; exact ⟨by simp, rfl⟩
  · split
    · right; exact ⟨by simp, rfl⟩
    · split
      · right; exact ⟨by simp, rfl⟩
      · split
        · left; rfl
        · right; exact ⟨by simp, rfl⟩

/-- Full behaviour of the validation tail: a failed check deletes the
install root recursively and leaves the config alone; passing checks
leave the filesystem alone and succeed exactly when the config write
does, recording the version. -/
theorem postExtract_spec (env : InstallEnv) (installPath : Path)
    (v : String) (st : St) :
    ((¬ ∃ b, st.fs.readFile (installPath ++ ["VERSION"]) = .ok b
          ∧ trimSpaceBytes b = strBytes v)
      ∨ st.fs.stat (goBinPath env.goos installPath) = none →
      (∃ err, (postExtract env installPath v st).1 = .error err)
      ∧ (postExtract env installPath v st).2.fs = st.fs.removeAll installPath
      ∧ (postExtract env installPath v st).2.fs.stat installPath = none
      ∧ (postExtract env installPath v st).2.config = st.config)
    ∧ ((∃ b, st.fs.readFile (installPath ++ ["VERSION"]) = .ok b
          ∧ trimSpaceBytes b = strBytes v) →
       (st.fs.stat (goBinPath env.goos installPath)).isSome = true →
       (postExtract env installPath v st).2.fs = st.fs
       ∧ ((postExtract env installPath v st).1 = .ok () ↔ env.configOk = true)
       ∧ (env.configOk = true →
          (postExtract env installPath v st).2.config =
            addVersion env.now v st.config)) := by
  unfold postExtract
  split
  · rename_i e heq
    refine ⟨fun _ => ⟨⟨_, rfl⟩, rfl, stat_removeAll_self _ _, rfl⟩, ?_⟩
    intro ⟨b, hb, _⟩ _
    rw [heq] at hb
    exact absurd hb (by simp)
  · rename_i b heq
    split
    · rename_i htrim
      refine ⟨fun _ => ⟨⟨_, rfl⟩, rfl, stat_removeAll_self _ _, rfl⟩, ?_⟩
      intro ⟨b', hb', htrim'⟩ _
      rw [heq] at hb'
      have hbb : b' = b := by simpa using hb'.symm
      exact absurd (hbb ▸ htrim') htrim
    · rename_i htrim
      have htrimEq : trimSpaceBytes b = strBytes v := not_ne_iff.mp htrim
      split
      · rename_i hbin
        refine ⟨fun _ => ⟨⟨_, rfl⟩, rfl, stat_removeAll_self _ _, rfl⟩, ?_⟩
        intro _ hsome
        rw [hbin] at hsome
        simp at hsome
      · rename_i n hbin
        constructor
        · intro hfail
          rcases hfail with hnex | hnone
          · exact absurd ⟨b, heq, htrimEq⟩ hnex
          · rw [hbin] at hnone; simp at hnone
        · intro _ _
          split
          · rename_i hcfg
            exact ⟨rfl, by simp [hcfg], fun _ => rfl⟩
          · rename_i hcfg
            refine ⟨rfl, ?_, fun hh => absurd hh hcfg⟩
            constructor
            · intro hh; simp at hh
            · intro hh; exact absurd hh hcfg

/-- On success the validation tail leaves the filesystem alone, records
the version, and its checks held on the input filesystem. -/
theorem postExtract_ok (env : InstallEnv) (p : Path) (v : String) (st : St)
    (h : (postExtract env p v st).1 = .ok ()) :
    (postExtract env p v st).2.fs = st.fs
    ∧ (postExtract env p v st).2.config = addVersion env.now v st.config
    ∧ (∃ b, st.fs.readFile (p ++ ["VERSION"]) = .ok b ∧ trimSpaceBytes b = strBytes v)
    ∧ (st.fs.stat (goBinPath env.goos p)).isSome = true := by
  have hspec := postExtract_spec env p v st
  by_cases hchecks : ∃ b, st.fs.readFile (p ++ ["VERSION"]) = .ok b
      ∧ trimSpaceBytes b = strBytes v
  · by_cases hbin : (st.fs.stat (goBinPath env.goos p)).isSome = true
    · obtain ⟨hfs, hiff, haddc⟩ := hspec.2 hchecks hbin
      exact ⟨hfs, haddc (hiff.mp h), hchecks, hbin⟩
    · have hnone : st.fs.stat (goBinPath env.goos p) = none := by
        cases hx : st.fs.stat (goBinPath env.goos p)
        · rfl
        · rw [hx] at hbin; simp at hbin
      obtain ⟨⟨err, herr⟩, -, -, -⟩ := hspec.1 (Or.inr hnone)
      rw [herr] at h; simp at h
  · obtain ⟨⟨err, herr⟩, -, -, -⟩ := hspec.1 (Or.inl hchecks)
    rw [herr] at h; simp at h

theorem installVersion_result (env : InstallEnv) (vm : VM) (v : String) (st : St) :
    (installVersion env vm v st).1 = .ok () ∨
    ((installVersion env vm v st).1 ≠ .ok ()
      ∧ (installVersion env vm v st).2.config = st.config) := by
  simp only [installVersion]
  split
  · right; exact ⟨by simp, rfl⟩
  · split
    · right; exact ⟨by simp, rfl⟩
    · split
      · right; exact ⟨by simp, rfl⟩
      · split
        · right; exact ⟨by simp, rfl⟩
        · split
          · right; exact ⟨by simp, rfl⟩
          · split
            · right; exact ⟨by simp, rfl⟩
            · split
              · right; exact ⟨by simp, rfl⟩
              · split
                · split
                  · right; exact ⟨by simp, rfl⟩
                  · exact postExtract_result env _ v _
                · split
                  · split
                    · right; exact ⟨by simp, rfl⟩
                    · exact postExtract_result env _ v _
                  · right; exact ⟨by simp, rfl⟩

/-- A successful tar extraction leaves an entry at the destination root. -/
theorem extractTarGz_ok_stat_dest (ar : List TarEntry) (dest : Path) (fs fs2 : FS)
    (h : extractTarGz ar dest fs = (none, fs2)) (hne : dest ≠ []) :
    (fs2.stat dest).isSome = true := by
  unfold extractTarGz at h
  cases hmk : fs.mkdirAll dest with
  | error e => rw [hmk] at h; simp at h
  | ok fs1 =>
    rw [hmk] at h
    have h' : runSteps (tarStep dest) fs1 ar = (none, fs2) := h
    have hd : (fs1.stat dest).isSome = true := by
      rw [mkdirAll_stat_self fs dest fs1 hmk hne]; rfl
    have := runSteps_stat_isSome (tarStep dest) (tarStep_stat_isSome dest) ar fs1 dest hd
      (by rw [h'])
    rwa [h'] at this

/-- A successful zip extraction leaves an entry at the destination root. -/
theorem extractZip_ok_stat_dest (ar : List ZipEntry) (dest : Path) (fs fs2 : FS)
    (h : extractZip ar dest fs = (none, fs2)) (hne : dest ≠ []) :
    (fs2.stat dest).isSome = true := by
  unfold extractZip at h
  cases hmk : fs.mkdirAll dest with
  | error e => rw [hmk] at h; simp at h
  | ok fs1 =>
    rw [hmk] at h
    have h' : runSteps (zipStep dest) fs1 ar = (none, fs2) := h
    have hd : (fs1.stat dest).isSome = true := by
      rw [mkdirAll_stat_self fs dest fs1 hmk hne]; rfl
    have := runSteps_stat_isSome (zipStep dest) (zipStep_stat_isSome dest) ar fs1 dest hd
      (by rw [h'])
    rwa [h'] at this

/-- A successful install run is a successful `postExtract` over the
post-extraction filesystem, which carries an entry at the install root. -/
theorem installVersion_ok_shape (env : InstallEnv) (vm : VM) (v : String) (st : St)
    (hne : goJoin vm.installDir v ≠ [])
    (h : (installVersion env vm v st).1 = .ok ()) :
    ∃ fs2, (fs2.stat (goJoin vm.installDir v)).isSome = true
      ∧ installVersion env vm v st =
          postExtract env (goJoin vm.installDir v) v ⟨fs2, st.config⟩ := by
  by_cases h1 : isVersionInstalled st.fs vm v = true
  · exfalso; simp [installVersion, h1] at h
  · cases hcat : env.catalog with
    | error e => exfalso; simp [installVersion, h1, hcat] at h
    | ok avail =>
      cases htv : avail.find? (fun gv => gv.version = v) with
      | none => exfalso; simp [installVersion, h1, hcat, htv] at h
      | some tv =>
        cases htf : tv.files.find? (fun f => f.os = env.goos && f.arch = env.goarch) with
        | none => exfalso; simp [installVersion, h1, hcat, htv, htf] at h
        | some tf =>
          by_cases hdl : env.downloadOk = true
          case neg => exfalso; simp [installVersion, h1, hcat, htv, htf, hdl] at h
          case pos =>
          cases hed : ensureDir st.fs vm.installDir with
          | error e => exfalso; simp [installVersion, h1, hcat, htv, htf, hdl, hed] at h
          | ok fs1 =>
            by_cases hsha : (tf.sha256 ≠ "" ∧ verifySHA256 env.rawArtifact tf.sha256 ≠ .ok ())
            · exfalso; simp [installVersion, h1, hcat, htv, htf, hdl, hed, hsha] at h
            · by_cases htar : strTrails ".tar.gz" (lowerStr tf.filename) = true
              · rcases hex : extractTarGz env.tarArchive (goJoin vm.installDir v) fs1 with ⟨o, fs2⟩
                cases o with
                | some e =>
                  exfalso
                  simp [installVersion, h1, hcat, htv, htf, hdl, hed, hsha, htar, hex] at h
                | none =>
                  refine ⟨fs2, extractTarGz_ok_stat_dest _ _ _ _ hex hne, ?_⟩
                  simp [installVersion, h1, hcat, htv, htf, hdl, hed, hsha, htar, hex]
              · by_cases hzip : strTrails ".zip" (lowerStr tf.filename) = true
                · rcases hex : extractZip env.zipArchive (goJoin vm.installDir v) fs1 with ⟨o, fs2⟩
                  cases o with
                  | some e =>
                    exfalso
                    simp [installVersion, h1, hcat, htv, htf, hdl, hed, hsha, htar, hzip, hex] at h
                  | none =>
                    refine ⟨fs2, extractZip_ok_stat_dest _ _ _ _ hex hne, ?_⟩
                    simp [installVersion, h1, hcat, htv, htf, hdl, hed, hsha, htar, hzip, hex]
                · exfalso
                  simp [installVersion, h1, hcat, htv, htf, hdl, hed, hsha, htar, hzip] at h

/-- The validation predicate the spec's invariant refers to: the install
root exists, the marker file's trimmed content names the version, and the
platform entry-point binary is present. -/
def dirValidated (goos : String) (fs : FS) (installPath : Path) (v : String) : Bool :=
  (fs.stat installPath).isSome &&
  (match fs.readFile (installPath ++ ["VERSION"]) with
   | .ok b => trimSpaceBytes b = strBytes v
   | .error _ => false) &&
  (fs.stat (goBinPath goos installPath)).isSome

/-- C1.  `InstallVersion` writes the installation record only after the
installed directory exists and passed validation: a successful install
leaves both the record and a validated directory (hence one exists iff
the other does), and every failed install leaves the config store — and
so the set of records — exactly as it was. -/
theorem C1_record_iff_validated (env : InstallEnv) (vm : VM) (v : String)
    (st : St) (hwf : vm.wf) (hv : plainComp v = true) :
    ((installVersion env vm v st).1 = .ok () →
      (alookup v (installVersion env vm v st).2.config.versions).isSome = true
      ∧ dirValidated env.goos (installVersion env vm v st).2.fs (goJoin vm.installDir v) v = true
      ∧ ((alookup v (installVersion env vm v st).2.config.versions).isSome = true ↔
          dirValidated env.goos (installVersion env vm v st).2.fs (goJoin vm.installDir v) v = true))
    ∧ ((installVersion env vm v st).1 ≠ .ok () →
        (installVersion env vm v st).2.config = st.config) := by
  constructor
  · intro h
    have hne : goJoin vm.installDir v ≠ [] := by
      rw [goJoin_plain vm.installDir v hwf hv]
      simp
    obtain ⟨fs2, hstat, hrw⟩ := installVersion_ok_shape env vm v st hne h
    rw [hrw] at h ⊢
    obtain ⟨hfs, hcfg, ⟨b, hb, htrim⟩, hbin⟩ := postExtract_ok env _ v _ h
    have hrec : (alookup v (postExtract env (goJoin vm.installDir v) v
        ⟨fs2, st.config⟩).2.config.versions).isSome = true := by
      rw [hcfg]
      show (alookup v (assocSet st.config.versions v ⟨env.now, false⟩)).isSome = true
      rw [alookup_assocSet_self]; rfl
    have hval : dirValidated env.goos (postExtract env (goJoin vm.installDir v) v
        ⟨fs2, st.config⟩).2.fs (goJoin vm.installDir v) v = true := by
      rw [hfs]
      show dirValidated env.goos fs2 (goJoin vm.installDir v) v = true
      unfold dirValidated
      rw [hb]
      simp [hstat, htrim, hbin]
    exact ⟨hrec, hval, by rw [hrec, hval]⟩
  · intro h
    rcases installVersion_result env vm v st with hok | ⟨_, hcfg⟩
    · exact absurd hok h
    · exact hcfg

set_option maxRecDepth 10000 in
/-- Witness for C1: a concrete successful install of `go1.21.5` from a
tar archive leaves the record and the validated directory. -/
theorem C1_witness :
    (alookup "go1.21.5"
      (installVersion
        { catalog := .ok [⟨"go1.21.5", true,
            [⟨"go1.21.5.linux-amd64.tar.gz", "linux", "amd64", "go1.21.5", "", 9⟩]⟩],
          goos := "linux", goarch := "amd64", downloadOk := true, rawArtifact := [],
          tarArchive := [⟨"go/", .dir, 493, []⟩,
            ⟨"go/VERSION", .reg, 420, strBytes "go1.21.5"⟩,
            ⟨"go/bin", .dir, 493, []⟩, ⟨"go/bin/go", .reg, 493, [1, 2, 3]⟩],
          zipArchive := [], now := "2024-01-01 00:00:00", configOk := true }
        ⟨["home", "u", ".gvm", "versions"]⟩ "go1.21.5"
        ⟨⟨[]⟩, ⟨"", "", []⟩⟩).2.config.versions).isSome = true
    ∧ dirValidated "linux"
        (installVersion
          { catalog := .ok [⟨"go1.21.5", true,
              [⟨"go1.21.5.linux-amd64.tar.gz", "linux", "amd64", "go1.21.5", "", 9⟩]⟩],
            goos := "linux", goarch := "amd64", downloadOk := true, rawArtifact := [],
            tarArchive := [⟨"go/", .dir, 493, []⟩,
              ⟨"go/VERSION", .reg, 420, strBytes "go1.21.5"⟩,
              ⟨"go/bin", .dir, 493, []⟩, ⟨"go/bin/go", .reg, 493, [1, 2, 3]⟩],
            zipArchive := [], now := "2024-01-01 00:00:00", configOk := true }
          ⟨["home", "u", ".gvm", "versions"]⟩ "go1.21.5"
          ⟨⟨[]⟩, ⟨"", "", []⟩⟩).2.fs
        (goJoin ["home", "u", ".gvm", "versions"] "go1.21.5") "go1.21.5" = true := by
  have h := (C1_record_iff_validated
    { catalog := .ok [⟨"go1.21.5", true,
        [⟨"go1.21.5.linux-amd64.tar.gz", "linux", "amd64", "go1.21.5", "", 9⟩]⟩],
      goos := "linux", goarch := "amd64", downloadOk := true, rawArtifact := [],
      tarArchive := [⟨"go/", .dir, 493, []⟩,
        ⟨"go/VERSION", .reg, 420, strBytes "go1.21.5"⟩,
        ⟨"go/bin", .dir, 493, []⟩, ⟨"go/bin/go", .reg, 493, [1, 2, 3]⟩],
      zipArchive := [], now := "2024-01-01 00:00:00", configOk := true }
    ⟨["home", "u", ".gvm", "versions"]⟩ "go1.21.5"
    ⟨⟨[]⟩, ⟨"", "", []⟩⟩ (by decide) (by decide)).1 (by decide)
  exact ⟨h.1, h.2.1⟩

set_option maxRecDepth 10000 in
/-- C2 counterexample: the marker-file check uses `strings.TrimSpace`, so
a `VERSION` file whose content is `"go1.21.5\n"` — not exactly equal to
the requested `go1.21.5` — still validates, the install succeeds and the
record is written. -/
theorem C2_counterexample :
    (installVersion
        { catalog := .ok [⟨"go1.21.5", true,
            [⟨"go1.21.5.linux-amd64.tar.gz", "linux", "amd64", "go1.21.5", "", 9⟩]⟩],
          goos := "linux", goarch := "amd64", downloadOk := true, rawArtifact := [],
          tarArchive := [⟨"go/", .dir, 493, []⟩,
            ⟨"go/VERSION", .reg, 420, strBytes "go1.21.5\n"⟩,
            ⟨"go/bin", .dir, 493, []⟩, ⟨"go/bin/go", .reg, 493, [1, 2, 3]⟩],
          zipArchive := [], now := "2024-01-01 00:00:00", configOk := true }
        ⟨["home", "u", ".gvm", "versions"]⟩ "go1.21.5"
        ⟨⟨[]⟩, ⟨"", "", []⟩⟩).1 = .ok ()
    ∧ (installVersion
        { catalog := .ok [⟨"go1.21.5", true,
            [⟨"go1.21.5.linux-amd64.tar.gz", "linux", "amd64", "go1.21.5", "", 9⟩]⟩],
          goos := "linux", goarch := "amd64", downloadOk := true, rawArtifact := [],
          tarArchive := [⟨"go/", .dir, 493, []⟩,
            ⟨"go/VERSION", .reg, 420, strBytes "go1.21.5\n"⟩,
            ⟨"go/bin", .dir, 493, []⟩, ⟨"go/bin/go", .reg, 493, [1, 2, 3]⟩],
          zipArchive := [], now := "2024-01-01 00:00:00", configOk := true }
        ⟨["home", "u", ".gvm", "versions"]⟩ "go1.21.5"
        ⟨⟨[]⟩, ⟨"", "", []⟩⟩).2.fs.readFile
        (goJoin ["home", "u", ".gvm", "versions"] "go1.21.5" ++ ["VERSION"]) =
      .ok (strBytes "go1.21.5\n")
    ∧ strBytes "go1.21.5\n" ≠ strBytes "go1.21.5" := by
  refine ⟨by decide, by decide, by decide⟩

/-- C2 (amended).  After extraction, validation requires (a) a marker
file whose content equals the requested versionId *after trimming
surrounding whitespace* and (b) the platform entry-point binary; if
either check fails, the whole installed directory is removed recursively,
the install fails with a validation error, and the config store is left
untouched; when both checks pass nothing is deleted and the install
succeeds exactly when the config store write does. -/
theorem C2_validation_behaviour (env : InstallEnv) (installPath : Path)
    (v : String) (st : St) :
    ((¬ ∃ b, st.fs.readFile (installPath ++ ["VERSION"]) = .ok b
          ∧ trimSpaceBytes b = strBytes v)
      ∨ st.fs.stat (goBinPath env.goos installPath) = none →
      (∃ err, (postExtract env installPath v st).1 = .error err)
      ∧ (postExtract env installPath v st).2.fs = st.fs.removeAll installPath
      ∧ (postExtract env installPath v st).2.fs.stat installPath = none
      ∧ (postExtract env installPath v st).2.config = st.config)
    ∧ ((∃ b, st.fs.readFile (installPath ++ ["VERSION"]) = .ok b
          ∧ trimSpaceBytes b = strBytes v) →
       (st.fs.stat (goBinPath env.goos installPath)).isSome = true →
       (postExtract env installPath v st).2.fs = st.fs
       ∧ ((postExtract env installPath v st).1 = .ok () ↔ env.configOk = true)
       ∧ (env.configOk = true →
          (postExtract env installPath v st).2.config =
            addVersion env.now v st.config)) :=
  postExtract_spec env installPath v st

/-- Witness for C2: a missing marker file makes validation delete the
extracted directory and fail without touching the config. -/
theorem C2_witness :
    (∃ err, (postExtract
        { catalog := .ok [], goos := "linux", goarch := "amd64", downloadOk := true,
          rawArtifact := [], tarArchive := [], zipArchive := [],
          now := "2024-01-01", configOk := true }
        ["home", "u", ".gvm", "versions", "go1.21.5"] "go1.21.5"
        ⟨⟨[(["home", "u", ".gvm", "versions", "go1.21.5"], .dir)]⟩, ⟨"", "", []⟩⟩).1 =
      .error err)
    ∧ (postExtract
        { catalog := .ok [], goos := "linux", goarch := "amd64", downloadOk := true,
          rawArtifact := [], tarArchive := [], zipArchive := [],
          now := "2024-01-01", configOk := true }
        ["home", "u", ".gvm", "versions", "go1.21.5"] "go1.21.5"
        ⟨⟨[(["home", "u", ".gvm", "versions", "go1.21.5"], .dir)]⟩, ⟨"", "", []⟩⟩).2.fs.stat
        ["home", "u", ".gvm", "versions", "go1.21.5"] = none := by
  have h := (C2_validation_behaviour
    { catalog := .ok [], goos := "linux", goarch := "amd64", downloadOk := true,
      rawArtifact := [], tarArchive := [], zipArchive := [],
      now := "2024-01-01", configOk := true }
    ["home", "u", ".gvm", "versions", "go1.21.5"] "go1.21.5"
    ⟨⟨[(["home", "u", ".gvm", "versions", "go1.21.5"], .dir)]⟩, ⟨"", "", []⟩⟩).1
    (Or.inl (by intro ⟨b, hb, _⟩; exact Except.noConfusion hb))
  exact ⟨h.1, h.2.2.1⟩

/-! ## Flat-archive extraction lemmas (for the round-trip claim) -/

/-- The `go/` head-stripping applied to every archive entry path. -/
def stripGo (nm : String) : String := trimPre nm "go/"

theorem parentOf_append_one (p : Path) (x : String) : parentOf (p ++ [x]) = p := by
  simp [parentOf]

theorem append_one_ne_self (p : Path) (x : String) : p ++ [x] ≠ p := by
  intro h
  have := congrArg List.length h
  simp at this

theorem append_one_inj (p : Path) (x y : String) (h : p ++ [x] = p ++ [y]) : x = y := by
  simpa using h

theorem isDirAt_write_append_one (fs : FS) (dest : Path) (x : String) (n : FsNode)
    (h : fs.isDirAt dest = true) :
    (fs.write (dest ++ [x]) n).isDirAt dest = true := by
  unfold FS.isDirAt at h ⊢
  cases dest with
  | nil => rfl
  | cons d ds =>
    show decide ((fs.write ((d :: ds) ++ [x]) n).stat (d :: ds) = some .dir) = true
    rw [stat_write, if_neg (append_one_ne_self (d :: ds) x).symm]
    exact h

theorem isDirAt_of_stat_dir (fs : FS) (p : Path) (h : fs.stat p = some .dir) :
    fs.isDirAt p = true := by
  unfold FS.isDirAt
  cases p with
  | nil => rfl
  | cons a as => simp [h]

theorem ancestorsIncl_length_le (p a : Path) (h : a ∈ ancestorsIncl p) :
    a.length ≤ p.length := by
  simp only [ancestorsIncl, List.mem_map, List.mem_range] at h
  obtain ⟨i, hi, rfl⟩ := h
  simp [List.length_take]

theorem foldl_mkdirOne_id (l : List Path) (fs : FS)
    (h : ∀ a ∈ l, (fs.stat a).isSome = true) : l.foldl FS.mkdirOne fs = fs := by
  induction l with
  | nil => rfl
  | cons a as ih =>
    have ha := h a (List.mem_cons_self a as)
    have h1 : fs.mkdirOne a = fs := by
      unfold FS.mkdirOne
      cases hs : fs.stat a
      · rw [hs] at ha; simp at ha
      · rfl
    rw [List.foldl_cons, h1]
    exact ih (fun b hb => h b (List.mem_cons_of_mem a hb))

theorem mkdirAll_all_dirs (fs : FS) (p : Path)
    (h : ∀ a ∈ ancestorsIncl p, fs.stat a = some .dir) : fs.mkdirAll p = .ok fs := by
  unfold FS.mkdirAll
  rw [if_pos (List.all_eq_true.mpr (fun a ha => by unfold FS.dirOrAbsent; rw [h a ha]))]
  rw [FS.mkdirAllOk, foldl_mkdirOne_id _ _ (fun a ha => by rw [h a ha]; rfl)]

theorem mkdirAll_ancestors_dir (fs : FS) (p : Path) (fs' : FS)
    (h : fs.mkdirAll p = .ok fs') (a : Path) (ha : a ∈ ancestorsIncl p) :
    fs'.stat a = some .dir := by
  obtain ⟨rfl, hall⟩ := mkdirAll_ok fs p _ h
  rw [stat_mkdirAllOk]
  cases hs : fs.stat a with
  | none => simp [ha]
  | some n =>
    have hda := List.all_eq_true.mp hall a ha
    unfold FS.dirOrAbsent at hda
    rw [hs] at hda
    cases n <;> simp_all

theorem nodup_map_inj {α β : Type} (f : α → β) (l : List α)
    (h : (l.map f).Nodup) : ∀ a ∈ l, ∀ b ∈ l, f a = f b → a = b := by
  induction l with
  | nil => intro a ha; simp at ha
  | cons x xs ih =>
    rw [List.map_cons, List.nodup_cons] at h
    intro a ha b hb hf
    rcases List.mem_cons.mp ha with rfl | ha'
    · rcases List.mem_cons.mp hb with rfl | hb'
      · rfl
      · exact absurd (hf ▸ List.mem_map_of_mem f hb') h.1
    · rcases List.mem_cons.mp hb with rfl | hb'
      · exact absurd (hf ▸ List.mem_map_of_mem f ha') h.1
      · exact ih h.2 a ha' b hb' hf

/-- Extracting a flat list of regular tar entries over a filesystem where
the destination is a directory and all targets are fresh: every entry
lands as a file at its stripped path, and nothing else changes. -/
theorem runSteps_tar_flat (dest : Path) (hdest : cleanPath dest = true)
    (es : List TarEntry) (fs : FS)
    (hreg : ∀ e ∈ es, e.typeflag = TarType.reg)
    (hplain : ∀ e ∈ es, plainComp (stripGo e.name) = true)
    (hfresh : ∀ e ∈ es, fs.stat (dest ++ [stripGo e.name]) = none)
    (hdir : fs.stat dest = some FsNode.dir)
    (hnodup : (es.map (fun e => stripGo e.name)).Nodup) :
    (runSteps (tarStep dest) fs es).1 = none
    ∧ ∀ q : Path, (runSteps (tarStep dest) fs es).2.stat q =
        (match es.find? (fun e2 => decide (q = dest ++ [stripGo e2.name])) with
         | some e2 => some (.file e2.content e2.mode)
         | none => fs.stat q) := by
  induction es generalizing fs with
  | nil =>
    refine ⟨rfl, fun q => ?_⟩
    rw [runSteps_nil]
    rfl
  | cons e es ih =>
    have hn := hplain e (List.mem_cons_self e es)
    have htarget : goJoin dest (trimPre e.name "go/") = dest ++ [stripGo e.name] :=
      goJoin_plain dest _ hdest hn
    have hstep : tarStep dest fs e =
        .ok (fs.write (dest ++ [stripGo e.name]) (.file e.content e.mode)) := by
      simp only [tarStep, hreg e (List.mem_cons_self e es), htarget]
      exact openWrite_fresh fs _ e.content e.mode
        (by rw [parentOf_append_one]; exact isDirAt_of_stat_dir fs dest hdir)
        (hfresh e (List.mem_cons_self e es))
    have hnodup' : (stripGo e.name ∉ es.map (fun e2 => stripGo e2.name))
        ∧ (es.map (fun e2 => stripGo e2.name)).Nodup := by
      rw [List.map_cons, List.nodup_cons] at hnodup
      exact hnodup
    obtain ⟨ih1, ih2⟩ := ih
      (fs.write (dest ++ [stripGo e.name]) (.file e.content e.mode))
      (fun e' he' => hreg e' (List.mem_cons_of_mem e he'))
      (fun e' he' => hplain e' (List.mem_cons_of_mem e he'))
      (fun e' he' => by
        rw [stat_write]
        rw [if_neg (fun hq : dest ++ [stripGo e'.name] = dest ++ [stripGo e.name] =>
          hnodup'.1 ((append_one_inj _ _ _ hq) ▸
            List.mem_map_of_mem (fun e2 => stripGo e2.name) he'))]
        exact hfresh e' (List.mem_cons_of_mem e he'))
      (by rw [stat_write, if_neg (append_one_ne_self dest _).symm]; exact hdir)
      hnodup'.2
    constructor
    · rw [runSteps_cons, hstep]
      exact ih1
    · intro q
      rw [runSteps_cons, hstep]
      show (runSteps (tarStep dest) _ es).2.stat q = _
      rw [ih2 q]
      by_cases hq : q = dest ++ [stripGo e.name]
      · have hnone : es.find? (fun e2 => decide (q = dest ++ [stripGo e2.name])) = none := by
          cases hfind : es.find? (fun e2 => decide (q = dest ++ [stripGo e2.name])) with
          | none => rfl
          | some e2 =>
            have hmem2 := List.mem_of_find?_eq_some hfind
            have hpred := List.find?_some hfind
            simp only [decide_eq_true_eq] at hpred
            have heqn : stripGo e2.name = stripGo e.name :=
              append_one_inj _ _ _ (hpred.symm.trans hq)
            exact absurd (heqn ▸ List.mem_map_of_mem (fun e2 => stripGo e2.name) hmem2)
              hnodup'.1
        rw [hnone, List.find?_cons_of_pos _ (by simp [hq])]
        show (fs.write (dest ++ [stripGo e.name]) (.file e.content e.mode)).stat q = _
        rw [stat_write, if_pos hq]
      · rw [List.find?_cons_of_neg _ (by simp [hq])]
        cases hfind : es.find? (fun e2 => decide (q = dest ++ [stripGo e2.name])) with
        | some e2 => rfl
        | none =>
          show (fs.write (dest ++ [stripGo e.name]) (.file e.content e.mode)).stat q = _
          rw [stat_write, if_neg hq]

/-- The zip analogue: zip entries create their parent directory chain
first, which is a no-op here because the destination's chain already
exists. -/
theorem runSteps_zip_flat (dest : Path) (hdest : cleanPath dest = true)
    (es : List ZipEntry) (fs : FS)
    (hreg : ∀ e ∈ es, e.entryIsDir = false)
    (hplain : ∀ e ∈ es, plainComp (stripGo e.name) = true)
    (hfresh : ∀ e ∈ es, fs.stat (dest ++ [stripGo e.name]) = none)
    (hanc : ∀ a ∈ ancestorsIncl dest, fs.stat a = some FsNode.dir)
    (hdirAt : fs.isDirAt dest = true)
    (hnodup : (es.map (fun e => stripGo e.name)).Nodup) :
    (runSteps (zipStep dest) fs es).1 = none
    ∧ ∀ q : Path, (runSteps (zipStep dest) fs es).2.stat q =
        (match es.find? (fun e2 => decide (q = dest ++ [stripGo e2.name])) with
         | some e2 => some (.file e2.content e2.mode)
         | none => fs.stat q) := by
  induction es generalizing fs with
  | nil =>
    refine ⟨rfl, fun q => ?_⟩
    rw [runSteps_nil]
    rfl
  | cons e es ih =>
    have hn := hplain e (List.mem_cons_self e es)
    have htarget : goJoin dest (trimPre e.name "go/") = dest ++ [stripGo e.name] :=
      goJoin_plain dest _ hdest hn
    have hmkpar : fs.mkdirAll (parentOf (dest ++ [stripGo e.name])) = .ok fs := by
      rw [parentOf_append_one]
      exact mkdirAll_all_dirs fs dest hanc
    have hstep : zipStep dest fs e =
        .ok (fs.write (dest ++ [stripGo e.name]) (.file e.content e.mode)) := by
      simp only [zipStep, hreg e (List.mem_cons_self e es), htarget, Bool.false_eq_true,
        if_false, hmkpar]
      exact openWrite_fresh fs _ e.content e.mode
        (by rw [parentOf_append_one]; exact hdirAt)
        (hfresh e (List.mem_cons_self e es))
    have hnodup' : (stripGo e.name ∉ es.map (fun e2 => stripGo e2.name))
        ∧ (es.map (fun e2 => stripGo e2.name)).Nodup := by
      rw [List.map_cons, List.nodup_cons] at hnodup
      exact hnodup
    have hne_tgt : ∀ a ∈ ancestorsIncl dest, a ≠ dest ++ [stripGo e.name] := by
      intro a ha heq
      have := ancestorsIncl_length_le dest a ha
      rw [heq] at this
      simp at this
    obtain ⟨ih1, ih2⟩ := ih
      (fs.write (dest ++ [stripGo e.name]) (.file e.content e.mode))
      (fun e' he' => hreg e' (List.mem_cons_of_mem e he'))
      (fun e' he' => hplain e' (List.mem_cons_of_mem e he'))
      (fun e' he' => by
        rw [stat_write]
        rw [if_neg (fun hq : dest ++ [stripGo e'.name] = dest ++ [stripGo e.name] =>
          hnodup'.1 ((append_one_inj _ _ _ hq) ▸
            List.mem_map_of_mem (fun e2 => stripGo e2.name) he'))]
        exact hfresh e' (List.mem_cons_of_mem e he'))
      (fun a ha => by
        rw [stat_write, if_neg (hne_tgt a ha)]
        exact hanc a ha)
      (isDirAt_write_append_one fs dest _ _ hdirAt)
      hnodup'.2
    constructor
    · rw [runSteps_cons, hstep]
      exact ih1
    · intro q
      rw [runSteps_cons, hstep]
      show (runSteps (zipStep dest) _ es).2.stat q = _
      rw [ih2 q]
      by_cases hq : q = dest ++ [stripGo e.name]
      · have hnone : es.find? (fun e2 => decide (q = dest ++ [stripGo e2.name])) = none := by
          cases hfind : es.find? (fun e2 => decide (q = dest ++ [stripGo e2.name])) with
          | none => rfl
          | some e2 =>
            have hmem2 := List.mem_of_find?_eq_some hfind
            have hpred := List.find?_some hfind
            simp only [decide_eq_true_eq] at hpred
            have heqn : stripGo e2.name = stripGo e.name :=
              append_one_inj _ _ _ (hpred.symm.trans hq)
            exact absurd (heqn ▸ List.mem_map_of_mem (fun e2 => stripGo e2.name) hmem2)
              hnodup'.1
        rw [hnone, List.find?_cons_of_pos _ (by simp [hq])]
        show (fs.write (dest ++ [stripGo e.name]) (.file e.content e.mode)).stat q = _
        rw [stat_write, if_pos hq]
      · rw [List.find?_cons_of_neg _ (by simp [hq])]
        cases hfind : es.find? (fun e2 => decide (q = dest ++ [stripGo e2.name])) with
        | some e2 => rfl
        | none =>
          show (fs.write (dest ++ [stripGo e.name]) (.file e.content e.mode)).stat q = _
          rw [stat_write, if_neg hq]

/-- C8.  For a synthetic archive of N regular files with plain
(single-component) stripped entry paths and distinct names, extraction —
in both container formats — into a fresh destination succeeds and
produces exactly those N files at the prefix-stripped paths with
byte-identical content (and their declared modes); and an entry path that
does not begin with the `go/` prefix is extracted with the prefix-strip
acting as a no-op. -/
theorem C8_flat_extraction_roundtrip
    (dest : Path) (fs : FS) (hdest : cleanPath dest = true) (hne : dest ≠ [])
    (hanc : ∀ a ∈ ancestorsIncl dest, fs.dirOrAbsent a = true)
    (hunder : ∀ q : Path, q ≠ [] → fs.stat (dest ++ q) = none)
    (tarEs : List TarEntry) (zipEs : List ZipEntry)
    (htreg : ∀ e ∈ tarEs, e.typeflag = TarType.reg)
    (htplain : ∀ e ∈ tarEs, plainComp (stripGo e.name) = true)
    (htnodup : (tarEs.map (fun e => stripGo e.name)).Nodup)
    (hzreg : ∀ e ∈ zipEs, e.entryIsDir = false)
    (hzplain : ∀ e ∈ zipEs, plainComp (stripGo e.name) = true)
    (hznodup : (zipEs.map (fun e => stripGo e.name)).Nodup) :
    ((extractTarGz tarEs dest fs).1 = none
      ∧ (∀ e ∈ tarEs, (extractTarGz tarEs dest fs).2.stat (dest ++ [stripGo e.name]) =
          some (.file e.content e.mode))
      ∧ (∀ q : Path, q ≠ [] →
          tarEs.find? (fun e2 => decide (dest ++ q = dest ++ [stripGo e2.name])) = none →
          (extractTarGz tarEs dest fs).2.stat (dest ++ q) = none))
    ∧ ((extractZip zipEs dest fs).1 = none
      ∧ (∀ e ∈ zipEs, (extractZip zipEs dest fs).2.stat (dest ++ [stripGo e.name]) =
          some (.file e.content e.mode))
      ∧ (∀ q : Path, q ≠ [] →
          zipEs.find? (fun e2 => decide (dest ++ q = dest ++ [stripGo e2.name])) = none →
          (extractZip zipEs dest fs).2.stat (dest ++ q) = none))
    ∧ (∀ nm : String, strLeads "go/" nm = false → stripGo nm = nm) := by
  have hmk : fs.mkdirAll dest = .ok (fs.mkdirAllOk dest) := by
    unfold FS.mkdirAll
    rw [if_pos (List.all_eq_true.mpr hanc)]
  set fs0 := fs.mkdirAllOk dest with hfs0
  have hdir0 : fs0.stat dest = some .dir := mkdirAll_stat_self fs dest fs0 hmk hne
  have hanc0 : ∀ a ∈ ancestorsIncl dest, fs0.stat a = some .dir :=
    mkdirAll_ancestors_dir fs dest fs0 hmk
  have hunder0 : ∀ q : Path, q ≠ [] → fs0.stat (dest ++ q) = none := by
    intro q hq
    rw [hfs0, stat_mkdirAllOk]
    have hno : ¬(dest ++ q ∈ ancestorsIncl dest ∧ fs.stat (dest ++ q) = none) := by
      rintro ⟨hmem, -⟩
      have hlen := ancestorsIncl_length_le dest _ hmem
      rw [List.length_append] at hlen
      exact hq (List.eq_nil_of_length_eq_zero (by omega))
    rw [if_neg hno]
    exact hunder q hq
  have htar := runSteps_tar_flat dest hdest tarEs fs0 htreg htplain
    (fun e _ => hunder0 [stripGo e.name] (by simp)) hdir0 htnodup
  have hzip := runSteps_zip_flat dest hdest zipEs fs0 hzreg hzplain
    (fun e _ => hunder0 [stripGo e.name] (by simp)) hanc0
    (isDirAt_of_stat_dir fs0 dest hdir0) hznodup
  have hexTar : extractTarGz tarEs dest fs = runSteps (tarStep dest) fs0 tarEs := by
    unfold extractTarGz
    rw [hmk]
  have hexZip : extractZip zipEs dest fs = runSteps (zipStep dest) fs0 zipEs := by
    unfold extractZip
    rw [hmk]
  refine ⟨⟨?_, ?_, ?_⟩, ⟨?_, ?_, ?_⟩, ?_⟩
  · rw [hexTar]; exact htar.1
  · intro e he
    rw [hexTar, htar.2]
    cases hfind : tarEs.find?
        (fun e2 => decide (dest ++ [stripGo e.name] = dest ++ [stripGo e2.name])) with
    | none =>
      have hh := List.find?_eq_none.mp hfind e he
      simp at hh
    | some e2 =>
      have hmem2 := List.mem_of_find?_eq_some hfind
      have hpred := List.find?_some hfind
      simp only [decide_eq_true_eq] at hpred
      have he2 : e2 = e :=
        nodup_map_inj _ tarEs htnodup e2 hmem2 e he (append_one_inj _ _ _ hpred.symm)
      subst he2
      rfl
  · intro q hq hfind
    rw [hexTar, htar.2, hfind]
    exact hunder0 q hq
  · rw [hexZip]; exact hzip.1
  · intro e he
    rw [hexZip, hzip.2]
    cases hfind : zipEs.find?
        (fun e2 => decide (dest ++ [stripGo e.name] = dest ++ [stripGo e2.name])) with
    | none =>
      have hh := List.find?_eq_none.mp hfind e he
      simp at hh
    | some e2 =>
      have hmem2 := List.mem_of_find?_eq_some hfind
      have hpred := List.find?_some hfind
      simp only [decide_eq_true_eq] at hpred
      have he2 : e2 = e :=
        nodup_map_inj _ zipEs hznodup e2 hmem2 e he (append_one_inj _ _ _ hpred.symm)
      subst he2
      rfl
  · intro q hq hfind
    rw [hexZip, hzip.2, hfind]
    exact hunder0 q hq
  · intro nm hnm
    simp [stripGo, trimPre, hnm]

set_option maxRecDepth 10000 in
/-- Witness for C8: a two-file tar archive and a one-file zip archive
whose entry lacks the `go/` prefix, extracted into a fresh directory. -/
theorem C8_witness :
    (extractTarGz [⟨"go/a", .reg, 420, [1]⟩, ⟨"go/b", .reg, 420, [2, 3]⟩]
        ["d"] ⟨[]⟩).1 = none
    ∧ (extractTarGz [⟨"go/a", .reg, 420, [1]⟩, ⟨"go/b", .reg, 420, [2, 3]⟩]
        ["d"] ⟨[]⟩).2.stat ["d", "a"] = some (.file [1] 420)
    ∧ (extractTarGz [⟨"go/a", .reg, 420, [1]⟩, ⟨"go/b", .reg, 420, [2, 3]⟩]
        ["d"] ⟨[]⟩).2.stat ["d", "x"] = none
    ∧ (extractZip [⟨"c", false, 420, [9]⟩] ["d"] ⟨[]⟩).2.stat ["d", "c"] =
        some (.file [9] 420) := by
  have h := C8_flat_extraction_roundtrip ["d"] ⟨[]⟩ (by decide) (by decide)
    (by decide) (fun _ _ => rfl)
    [⟨"go/a", .reg, 420, [1]⟩, ⟨"go/b", .reg, 420, [2, 3]⟩]
    [⟨"c", false, 420, [9]⟩]
    (by decide) (by decide) (by decide) (by decide) (by decide) (by decide)
  refine ⟨h.1.1, ?_, ?_, ?_⟩
  · exact h.1.2.1 ⟨"go/a", .reg, 420, [1]⟩ (by decide)
  · exact h.1.2.2 ["x"] (by decide) (by decide)
  · exact h.2.1.2.1 ⟨"c", false, 420, [9]⟩ (by decide)

/-! ## Downloader lemmas -/

theorem ensureDir_stat_other (fs : FS) (d : Path) (fs0 : FS)
    (h : ensureDir fs d = .ok fs0) (p : Path) (hp : p ∉ ancestorsIncl d) :
    fs0.stat p = fs.stat p := by
  unfold ensureDir at h
  split at h
  · injection h with h
    subst h
    rfl
  · obtain ⟨rfl, -⟩ := mkdirAll_ok fs d _ h
    rw [stat_mkdirAllOk, if_neg (fun hc => hp hc.1)]

theorem parent_child_not_mem_ancestors (d : Path) (x : String) :
    d ++ [x] ∉ ancestorsIncl d := by
  intro h
  have := ancestorsIncl_length_le d _ h
  simp at this

theorem self_not_mem_ancestors_parent (p : Path) (hne : p ≠ []) :
    p ∉ ancestorsIncl (parentOf p) := by
  intro h
  have hle := ancestorsIncl_length_le (parentOf p) _ h
  have hlen : (parentOf p).length = p.length - 1 := by simp [parentOf]
  have hpos : 0 < p.length := List.length_pos.mpr hne
  omega

/-- Behaviour of the rename-or-fallback tail over any filesystem holding
the full body in the temporary file. -/
theorem dlMove_spec (env : DlEnv) (destPath : Path) (fs fs3 : FS)
    (htd : tempPathOf env destPath ≠ destPath)
    (h3t : fs3.stat (tempPathOf env destPath) = some (.file env.body 384))
    (h3o : ∀ p, p ≠ tempPathOf env destPath → p ≠ destPath →
        p ∉ ancestorsIncl (parentOf destPath) → fs3.stat p = fs.stat p) :
    ((dlMove env destPath fs3).1.isSome = true →
      (dlMove env destPath fs3).2.stat (tempPathOf env destPath) = none)
    ∧ ((dlMove env destPath fs3).1 = none →
      ∃ m, (dlMove env destPath fs3).2.stat destPath = some (.file env.body m))
    ∧ (∀ p : Path, (dlMove env destPath fs3).2.stat p ≠ fs.stat p →
        p = tempPathOf env destPath ∨ p = destPath
          ∨ p ∈ ancestorsIncl (parentOf destPath)) := by
  have hdt : destPath ≠ tempPathOf env destPath := fun hh => htd hh.symm
  have hloc : ∀ (X : FS), (∀ p, p ≠ tempPathOf env destPath → p ≠ destPath →
        p ∉ ancestorsIncl (parentOf destPath) → X.stat p = fs.stat p) →
      ∀ p : Path, X.stat p ≠ fs.stat p →
        p = tempPathOf env destPath ∨ p = destPath
          ∨ p ∈ ancestorsIncl (parentOf destPath) := by
    intro X hX p hp
    by_cases hpt : p = tempPathOf env destPath
    · exact Or.inl hpt
    · by_cases hpd : p = destPath
      · exact Or.inr (Or.inl hpd)
      · by_cases hm : p ∈ ancestorsIncl (parentOf destPath)
        · exact Or.inr (Or.inr hm)
        · exact absurd (hX p hpt hpd hm) hp
  unfold dlMove
  split
  · -- rename succeeds
    split
    · rename_i node hnode
      rw [h3t] at hnode
      injection hnode with hnd
      refine ⟨fun h => by simp at h, fun _ => ⟨384, ?_⟩, ?_⟩
      · rw [stat_write, if_pos rfl, ← hnd]
      · refine hloc _ ?_
        intro p hpt hpd hm
        rw [stat_write, if_neg hpd, stat_remove, if_neg hpt, h3o p hpt hpd hm]
    · rename_i hnone
      rw [h3t] at hnone
      exact absurd hnone (by simp)
  · split
    · -- fallback open refused
      refine ⟨fun _ => by rw [stat_remove, if_pos rfl], fun h => absurd h (by simp),
        hloc _ ?_⟩
      intro p hpt hpd hm
      rw [stat_remove, if_neg hpt, h3o p hpt hpd hm]
    · split
      · -- fallback create failed
        refine ⟨fun _ => by rw [stat_remove, if_pos rfl], fun h => absurd h (by simp),
          hloc _ ?_⟩
        intro p hpt hpd hm
        rw [stat_remove, if_neg hpt, h3o p hpt hpd hm]
      · rename_i fs4 how4
        obtain ⟨m4, hfs4⟩ := openWrite_ok fs3 destPath [] 420 fs4 how4
        split
        · -- fallback copy failed midway
          refine ⟨fun _ => by rw [stat_remove, if_pos rfl], fun h => absurd h (by simp),
            hloc _ ?_⟩
          intro p hpt hpd hm
          rw [stat_remove, if_neg hpt, stat_write, if_neg hpd, hfs4, stat_write,
            if_neg hpd, h3o p hpt hpd hm]
        · -- fallback copy succeeded
          refine ⟨fun h => by simp at h,
            fun _ => ⟨420, by rw [stat_remove, if_neg hdt, stat_write, if_pos rfl]⟩,
            hloc _ ?_⟩
          intro p hpt hpd hm
          rw [stat_remove, if_neg hpt, stat_write, if_neg hpd, hfs4, stat_write,
            if_neg hpd, h3o p hpt hpd hm]

/-- Behaviour of the whole post-close tail (existing-destination removal
plus rename-or-fallback). -/
theorem dlFinish_spec (env : DlEnv) (destPath : Path) (fs fs2 : FS)
    (htd : tempPathOf env destPath ≠ destPath)
    (h2t : fs2.stat (tempPathOf env destPath) = some (.file env.body 384))
    (h2o : ∀ p, p ≠ tempPathOf env destPath → p ≠ destPath →
        p ∉ ancestorsIncl (parentOf destPath) → fs2.stat p = fs.stat p) :
    ((dlFinish env destPath fs2).1.isSome = true →
      (dlFinish env destPath fs2).2.stat (tempPathOf env destPath) = none)
    ∧ ((dlFinish env destPath fs2).1 = none →
      ∃ m, (dlFinish env destPath fs2).2.stat destPath = some (.file env.body m))
    ∧ (∀ p : Path, (dlFinish env destPath fs2).2.stat p ≠ fs.stat p →
        p = tempPathOf env destPath ∨ p = destPath
          ∨ p ∈ ancestorsIncl (parentOf destPath)) := by
  unfold dlFinish
  split
  · exact dlMove_spec env destPath fs fs2 htd h2t h2o
  · refine dlMove_spec env destPath fs _ htd ?_ ?_
    · rw [stat_remove, if_neg htd, h2t]
    · intro p hpt hpd hm
      rw [stat_remove, if_neg hpd, h2o p hpt hpd hm]
  · exact dlMove_spec env destPath fs fs2 htd h2t h2o

/-- The environment of the C5 counterexample: the rename fails and the
fallback copy dies after one byte. -/
def c5CexEnv : DlEnv :=
  { reqOk := true, status := 200, body := [7, 8, 9], readFailAfter := none,
    tempOk := true, tempName := "gvm-download-123", syncOk := true, closeOk := true,
    renameOk := false, openFallbackOk := true, copyFailAfter := some 1 }

/-- C5 counterexample: when the rename into place fails and the fallback
`io.Copy` fails midway, the temporary file is deleted and the error is
surfaced — but a *partial* file (here one byte of a three-byte body) is
left at `destPath`, contradicting "no partial file is ever left at
destPath". -/
theorem C5_counterexample :
    ((downloadFileWithProgress c5CexEnv ["d", "f"] ⟨[]⟩).1.isSome = true)
    ∧ (downloadFileWithProgress c5CexEnv ["d", "f"] ⟨[]⟩).2.stat ["d", "f"] =
        some (.file [7] 420)
    ∧ [7] ≠ c5CexEnv.body := by
  refine ⟨by decide, by decide, by decide⟩

/-- C5 (amended).  The downloader streams into a temporary file in the
same directory as `destPath` and touches no path outside that temporary
file, `destPath`, and the directory chain it ensures (locality clause);
on every error the temporary file is gone; on a streaming read error
`destPath` is untouched; on success `destPath` holds the full body.  The
claim's "no partial file is ever left at destPath" does not extend to the
rename fallback: a fallback copy that fails midway deletes the temporary
file and surfaces the error but leaves a partial `destPath` (see the
counterexample). -/
theorem C5_download_behaviour (env : DlEnv) (destPath : Path) (fs : FS)
    (hne : destPath ≠ [])
    (htemp : fs.stat (tempPathOf env destPath) = none)
    (htd : tempPathOf env destPath ≠ destPath) :
    ((downloadFileWithProgress env destPath fs).1.isSome = true →
      (downloadFileWithProgress env destPath fs).2.stat (tempPathOf env destPath) = none)
    ∧ (env.readFailAfter.isSome = true →
      (downloadFileWithProgress env destPath fs).1.isSome = true
      ∧ (downloadFileWithProgress env destPath fs).2.stat destPath = fs.stat destPath)
    ∧ ((downloadFileWithProgress env destPath fs).1 = none →
      ∃ m, (downloadFileWithProgress env destPath fs).2.stat destPath =
        some (.file env.body m))
    ∧ (∀ p : Path, (downloadFileWithProgress env destPath fs).2.stat p ≠ fs.stat p →
        p = tempPathOf env destPath ∨ p = destPath
          ∨ p ∈ ancestorsIncl (parentOf destPath)) := by
  have hdt : destPath ≠ tempPathOf env destPath := fun hh => htd hh.symm
  simp only [downloadFileWithProgress]
  split
  · exact ⟨fun _ => htemp, fun _ => ⟨rfl, rfl⟩, fun h => absurd h (by simp),
      fun p hp => absurd rfl hp⟩
  · split
    · exact ⟨fun _ => htemp, fun _ => ⟨rfl, rfl⟩, fun h => absurd h (by simp),
        fun p hp => absurd rfl hp⟩
    · split
      · exact ⟨fun _ => htemp, fun _ => ⟨rfl, rfl⟩, fun h => absurd h (by simp),
          fun p hp => absurd rfl hp⟩
      · rename_i fs0 hed
        have hst0 : ∀ p, p ∉ ancestorsIncl (parentOf destPath) → fs0.stat p = fs.stat p :=
          ensureDir_stat_other fs _ fs0 hed
        have h0t : fs0.stat (tempPathOf env destPath) = none := by
          rw [hst0 (tempPathOf env destPath) (parent_child_not_mem_ancestors _ _)]
          exact htemp
        have h0d : fs0.stat destPath = fs.stat destPath :=
          hst0 _ (self_not_mem_ancestors_parent destPath hne)
        have hloc0 : ∀ p : Path, fs0.stat p ≠ fs.stat p →
            p = tempPathOf env destPath ∨ p = destPath
              ∨ p ∈ ancestorsIncl (parentOf destPath) := by
          intro p hp
          by_cases hm : p ∈ ancestorsIncl (parentOf destPath)
          · exact Or.inr (Or.inr hm)
          · exact absurd (hst0 p hm) hp
        split
        · exact ⟨fun _ => h0t, fun _ => ⟨rfl, h0d⟩, fun h => absurd h (by simp), hloc0⟩
        · split
          · exact ⟨fun _ => h0t, fun _ => ⟨rfl, h0d⟩, fun h => absurd h (by simp), hloc0⟩
          · rename_i fs1 how
            obtain ⟨m1, hfs1⟩ := openWrite_ok fs0 _ [] 384 fs1 how
            have h1t : fs1.stat (tempPathOf env destPath) = some (.file [] m1) := by
              rw [hfs1, stat_write, if_pos rfl]
            have h1d : fs1.stat destPath = fs.stat destPath := by
              rw [hfs1, stat_write, if_neg hdt, h0d]
            have h1o : ∀ p, p ≠ tempPathOf env destPath →
                p ∉ ancestorsIncl (parentOf destPath) → fs1.stat p = fs.stat p := by
              intro p hpt hm
              rw [hfs1, stat_write, if_neg hpt, hst0 p hm]
            split
            · -- streaming read error after k bytes
              refine ⟨fun _ => by rw [stat_remove, if_pos rfl],
                fun _ => ⟨rfl, ?_⟩, fun h => absurd h (by simp), ?_⟩
              · rw [stat_remove, if_neg hdt, stat_write, if_neg hdt, h1d]
              · intro p hp
                by_cases hpt : p = tempPathOf env destPath
                · exact Or.inl hpt
                · by_cases hpd : p = destPath
                  · exact Or.inr (Or.inl hpd)
                  · by_cases hm : p ∈ ancestorsIncl (parentOf destPath)
                    · exact Or.inr (Or.inr hm)
                    · refine absurd ?_ hp
                      rw [stat_remove, if_neg hpt, stat_write, if_neg hpt, h1o p hpt hm]
            · rename_i hrf
              have hbvac : env.readFailAfter.isSome = true →
                  False := by
                intro hbs
                rw [hrf] at hbs
                simp at hbs
              have h2t : (fs1.write (tempPathOf env destPath)
                  (FsNode.file env.body 384)).stat (tempPathOf env destPath) =
                    some (.file env.body 384) := by
                rw [stat_write, if_pos rfl]
              have h2d : (fs1.write (tempPathOf env destPath)
                  (FsNode.file env.body 384)).stat destPath = fs.stat destPath := by
                rw [stat_write, if_neg hdt, h1d]
              have h2o : ∀ p, p ≠ tempPathOf env destPath →
                  p ∉ ancestorsIncl (parentOf destPath) →
                  (fs1.write (tempPathOf env destPath)
                    (FsNode.file env.body 384)).stat p = fs.stat p := by
                intro p hpt hm
                rw [stat_write, if_neg hpt, h1o p hpt hm]
              split
              · -- sync failure
                refine ⟨fun _ => by rw [stat_remove, if_pos rfl],
                  fun hbs => absurd (hbvac hbs) (fun hh => hh),
                  fun h => absurd h (by simp), ?_⟩
                intro p hp
                by_cases hpt : p = tempPathOf env destPath
                · exact Or.inl hpt
                · by_cases hm : p ∈ ancestorsIncl (parentOf destPath)
                  · exact Or.inr (Or.inr hm)
                  · refine absurd ?_ hp
                    rw [stat_remove, if_neg hpt, h2o p hpt hm]
              · split
                · -- close failure
                  refine ⟨fun _ => by rw [stat_remove, if_pos rfl],
                    fun hbs => absurd (hbvac hbs) (fun hh => hh),
                    fun h => absurd h (by simp), ?_⟩
                  intro p hp
                  by_cases hpt : p = tempPathOf env destPath
                  · exact Or.inl hpt
                  · by_cases hm : p ∈ ancestorsIncl (parentOf destPath)
                    · exact Or.inr (Or.inr hm)
                    · refine absurd ?_ hp
                      rw [stat_remove, if_neg hpt, h2o p hpt hm]
                · -- flushed and closed: hand over to the move tail
                  have hfin := dlFinish_spec env destPath fs
                    (fs1.write (tempPathOf env destPath) (FsNode.file env.body 384))
                    htd h2t (fun p hpt _ hm => h2o p hpt hm)
                  exact ⟨hfin.1, fun hbs => absurd (hbvac hbs) (fun hh => hh),
                    hfin.2.1, hfin.2.2⟩

/-- Witness for C5: a successful download of a three-byte body into
`/d/f` leaves the full body at the destination. -/
theorem C5_witness :
    ∃ m, (downloadFileWithProgress
      { reqOk := true, status := 200, body := [7, 8, 9], readFailAfter := none,
        tempOk := true, tempName := "gvm-download-7", syncOk := true, closeOk := true,
        renameOk := true, openFallbackOk := true, copyFailAfter := none }
      ["d", "f"] ⟨[]⟩).2.stat ["d", "f"] = some (.file [7, 8, 9] m) :=
  (C5_download_behaviour
    { reqOk := true, status := 200, body := [7, 8, 9], readFailAfter := none,
      tempOk := true, tempName := "gvm-download-7", syncOk := true, closeOk := true,
      renameOk := true, openFallbackOk := true, copyFailAfter := none }
    ["d", "f"] ⟨[]⟩ (by decide) (by decide) (by decide)).2.2.1 (by decide)

/-- Witness for C9: a recorded version with no entry is not installed; an
unrecorded entry is installed. -/
theorem C9_witness :
    isVersionInstalled (⟨[]⟩ : FS) ⟨["home", "u", ".gvm", "versions"]⟩ "go1.0" = false
    ∧ isVersionInstalled ⟨[(["home", "u", ".gvm", "versions", "go1.1"], FsNode.dir)]⟩
        ⟨["home", "u", ".gvm", "versions"]⟩ "go1.1" = true := by
  constructor
  · exact C9_installed_iff_entry.2.1
      ⟨⟨[]⟩, ⟨"", "", [("go1.0", ⟨"2024-01-01", false⟩)]⟩⟩ _ _ (by decide) (by decide)
  · exact C9_installed_iff_entry.2.2
      ⟨⟨[(["home", "u", ".gvm", "versions", "go1.1"], FsNode.dir)]⟩, ⟨"", "", []⟩⟩ _ _
      (by decide) (by decide)

end Gvm
